import Mathlib

/-!
Verification of the event-formatting core of twisted/python/logger/_format.py.

The Python module is shallowly embedded: every function of the source file is
translated into an executable Lean definition over an explicit value model.
Python exceptions are modelled with the Except monad; a Python function that
can raise returns Except PyErr.  Python dictionaries are modelled as
insertion-ordered association lists with unique keys (replace-or-append
assignment).  The parts of the Python standard library that the source leans
on (str/repr, string.Formatter.parse / get_field / vformat, decimal printing
of integers) are modelled here as well, restricted to the value universe of
the model and documented at each definition.
-/

namespace TwistedFormat

/-- Model of the Python exceptions that the embedded code can raise. -/
inductive PyErr where
  | keyError (k : String)
  | typeError (msg : String)
  | attributeError (msg : String)
  | valueError (msg : String)
  | indexError (msg : String)
  | unicodeDecodeError
  | strRaised
  deriving Repr, DecidableEq

/-- Model of the Python values a log event can hold.  vNone is Python None;
vBytes carries its UTF-8 decoding when the bytes are decodable; vFuncOk and
vFuncRaises model zero-argument callables (returning a value, resp. raising);
vBadStr models an object whose str()/repr() raise; vLevel models a log-level
object exposing a textual name attribute; vDict models a string-keyed dict. -/
inductive Value where
  | vStr (s : String)
  | vInt (n : Int)
  | vNone
  | vBytes (decoded : Option String)
  | vFuncOk (v : Value)
  | vFuncRaises
  | vBadStr
  | vLevel (nm : String)
  | vDict (entries : List (String × Value))
  deriving Repr

/-- A Python dict with string keys: insertion-ordered association list. -/
abbrev Event := List (String × Value)

/-- Dictionary lookup (first match; keys are unique by construction). -/
def lookupA {β : Type} : List (String × β) → String → Option β
  | [], _ => none
  | (k, v) :: rest, key => if k = key then some v else lookupA rest key

/-- Python `key in dict`. -/
def containsA {β : Type} (l : List (String × β)) (key : String) : Bool :=
  (lookupA l key).isSome

/-- Python `dict[key] = value`: replace in place if present, else append. -/
def setA {β : Type} : List (String × β) → String → β → List (String × β)
  | [], key, v => [(key, v)]
  | (k, w) :: rest, key, v =>
      if k = key then (key, v) :: rest else (k, w) :: setA rest key v

/-- Python `dict.get(key, default)`. -/
def getD (e : Event) (key : String) (dflt : Value) : Value :=
  match lookupA e key with
  | some v => v
  | none => dflt

/-- Python `dict[key]`, raising KeyError when absent. -/
def itemE (e : Event) (key : String) : Except PyErr Value :=
  match lookupA e key with
  | some v => .ok v
  | none => .error (.keyError key)

/-- Decimal digit characters of a positive number, most significant first;
the fuel only needs to exceed the number of digits and the division chain
makes any fuel of at least n sufficient for n. -/
def natDigitsAux : Nat → Nat → List Char
  | 0, _ => []
  | fuel + 1, n =>
      if n = 0 then []
      else natDigitsAux fuel (n / 10) ++ [Nat.digitChar (n % 10)]

/-- Model of Python str(n) for a natural number: decimal digits. -/
def pyNatStr (n : Nat) : String :=
  if n = 0 then "0" else String.mk (natDigitsAux (n + 1) n)

/-- Model of Python str(n) for an int: decimal digits with a sign. -/
def pyIntStr (n : Int) : String :=
  if n < 0 then "-" ++ pyNatStr n.natAbs else pyNatStr n.natAbs

/-- Model of str.replace(newline, newline + tab) at the character level
(the only replacement the source performs). -/
def indentNewlines : List Char → List Char
  | [] => []
  | c :: rest =>
      if c = '\n' then '\n' :: '\t' :: indentNewlines rest
      else c :: indentNewlines rest

/-- Model of Python repr() escaping for one character of a str
(backslash, the quote character, newline, carriage return, tab). -/
def pyCharEsc (quote : Char) (c : Char) : String :=
  if c = '\\' then "\\\\"
  else if c = quote then "\\" ++ String.mk [quote]
  else if c = '\n' then "\\n"
  else if c = '\r' then "\\r"
  else if c = '\t' then "\\t"
  else String.mk [c]

/-- Model of Python repr() of a str: single-quoted unless the text holds a
single quote and no double quote, with standard escapes. -/
def pyReprStr (s : String) : String :=
  let quote : Char :=
    if s.data.contains '\x27' && !(s.data.contains '"') then '"' else '\x27'
  String.mk [quote] ++ String.join (s.data.map (pyCharEsc quote)) ++ String.mk [quote]

mutual

/-- Model of Python repr() on the value universe; raises exactly for vBadStr
(directly or nested inside a dict). -/
def pyRepr : Value → Except PyErr String
  | .vStr s => .ok (pyReprStr s)
  | .vInt n => .ok (pyIntStr n)
  | .vNone => .ok "None"
  | .vBytes (some s) => .ok ("b" ++ pyReprStr s)
  | .vBytes none => .ok "b\x27\\xff\x27"
  | .vFuncOk _ => .ok "<function>"
  | .vFuncRaises => .ok "<function>"
  | .vBadStr => .error .strRaised
  | .vLevel nm => .ok ("<LogLevel=" ++ nm ++ ">")
  | .vDict l => do
      let parts ← pyReprEntries l
      .ok ("\x7b" ++ String.intercalate ", " parts ++ "\x7d")

/-- Repr of the entries of a dict, in insertion order. -/
def pyReprEntries : List (String × Value) → Except PyErr (List String)
  | [] => .ok []
  | (k, v) :: rest => do
      let rv ← pyRepr v
      let rs ← pyReprEntries rest
      .ok ((pyReprStr k ++ ": " ++ rv) :: rs)

end

/-- Model of Python str() on the value universe: identity on text, repr-like
on everything else (matching str = repr for ints, None, dicts). -/
def pyStr : Value → Except PyErr String
  | .vStr s => .ok s
  | v => pyRepr v

/-- Model of twisted.python.reflect.safe_repr: repr() that never raises,
degrading to a placeholder when repr itself fails. -/
def safe_repr (v : Value) : String :=
  match pyRepr v with
  | .ok s => s
  | .error _ => "<unrepresentable instance>"

/-- Model of Python str(exception) for the modelled exceptions.  Notably
str(KeyError(k)) is the repr of the missing key. -/
def errStr : PyErr → String
  | .keyError k => pyReprStr k
  | .typeError m => m
  | .attributeError m => m
  | .valueError m => m
  | .indexError m => m
  | .unicodeDecodeError => "invalid continuation byte"
  | .strRaised => "exception raised by a __str__ or __repr__ method"

/-- Model of repr(exception), used by safe_repr on exception objects. -/
def errReprStr : PyErr → String
  | .keyError k => "KeyError(" ++ pyReprStr k ++ ")"
  | .typeError m => "TypeError(" ++ pyReprStr m ++ ")"
  | .attributeError m => "AttributeError(" ++ pyReprStr m ++ ")"
  | .valueError m => "ValueError(" ++ pyReprStr m ++ ")"
  | .indexError m => "IndexError(" ++ pyReprStr m ++ ")"
  | .unicodeDecodeError => "UnicodeDecodeError()"
  | .strRaised => "Exception()"

/-! ### KeyFlattener -/

/-- The private counter mapping of one KeyFlattener instance
(self.keys, a defaultdict with default 0). -/
abbrev KF := List (String × Nat)

/-- Read a counter, defaulting to 0 (defaultdict semantics). -/
def kfGet (kf : KF) (key : String) : Nat :=
  (lookupA kf key).getD 0

/-- The canonical key "fieldName!conversion:formatSpec" computed by
KeyFlattener.flatKey before suffixing; Python formats a None fieldName as
the text None, and defaults conversion/formatSpec to the empty string. -/
def flatKeyCanonical (fieldName formatSpec conversion : Option String) : String :=
  (match fieldName with | none => "None" | some f => f) ++ "!" ++
    (match conversion with | none => "" | some c => c) ++ ":" ++
    (match formatSpec with | none => "" | some sp => sp)

/-- KeyFlattener.flatKey: bump the canonical key's occurrence count; the
first occurrence returns the canonical key unchanged, the nth returns it
suffixed with /n. -/
def flatKey (kf : KF) (fieldName formatSpec conversion : Option String) :
    String × KF :=
  let result := flatKeyCanonical fieldName formatSpec conversion
  let kf' := setA kf result (kfGet kf result + 1)
  let n := kfGet kf' result
  (if n = 1 then result else result ++ "/" ++ pyNatStr n, kf')

/-! ### Model of string.Formatter.parse -/

/-- One tuple (literalText, fieldName, formatSpec, conversion) yielded by
Formatter.parse.  fieldName and formatSpec are none exactly for a
literal-only segment (trailing literal or brace escape). -/
structure Seg where
  literal : String
  fieldName : Option String
  formatSpec : Option String
  conversion : Option String
  deriving Repr, DecidableEq

/-- How a literal chunk of a format string ends. -/
inductive LitEnd where
  | endOfString
  | fieldStart (rest : List Char)
  | doubled (rest : List Char)

/-- Scan a literal chunk: a doubled brace ends the chunk (keeping one brace),
a single opening brace starts a field, a single closing brace is an error. -/
def scanLiteral : List Char → List Char → Except PyErr (List Char × LitEnd)
  | [], acc => .ok (acc.reverse, .endOfString)
  | '\x7b' :: '\x7b' :: rest, acc => .ok (('\x7b' :: acc).reverse, .doubled rest)
  | '\x7d' :: '\x7d' :: rest, acc => .ok (('\x7d' :: acc).reverse, .doubled rest)
  | '\x7b' :: rest, acc => .ok (acc.reverse, .fieldStart rest)
  | '\x7d' :: _, _ =>
      .error (.valueError "Single \x27\x7d\x27 encountered in format string")
  | c :: rest, acc => scanLiteral rest (c :: acc)

/-- Scan a field to its matching closing brace, counting nested braces. -/
def scanField : List Char → Nat → List Char → Except PyErr (List Char × List Char)
  | [], _, _ =>
      .error (.valueError "Single \x27\x7b\x27 encountered in format string")
  | '\x7d' :: rest, 0, acc => .ok (acc.reverse, rest)
  | '\x7d' :: rest, d + 1, acc => scanField rest d ('\x7d' :: acc)
  | '\x7b' :: rest, d, acc => scanField rest (d + 1) ('\x7b' :: acc)
  | c :: rest, d, acc => scanField rest d (c :: acc)

/-- Split a field's text at the first top-level bang or colon; a bang or
colon inside square brackets belongs to the field name. -/
def splitName : List Char → Bool → List Char → (List Char × List Char)
  | [], _, acc => (acc.reverse, [])
  | '[' :: rest, _, acc => splitName rest true ('[' :: acc)
  | ']' :: rest, _, acc => splitName rest false (']' :: acc)
  | '!' :: rest, false, acc => (acc.reverse, '!' :: rest)
  | ':' :: rest, false, acc => (acc.reverse, ':' :: rest)
  | c :: rest, b, acc => splitName rest b (c :: acc)

/-- Split a field's text into (fieldName, formatSpec, conversion): the
conversion is the single character after the bang, the spec follows the
colon and defaults to the empty string. -/
def parseField (inner : List Char) : Except PyErr (String × String × Option String) :=
  match splitName inner false [] with
  | (nm, []) => .ok (String.mk nm, "", none)
  | (nm, ':' :: spec) => .ok (String.mk nm, String.mk spec, none)
  | (_, ['!']) =>
      .error (.valueError "end of string while looking for conversion specifier")
  | (nm, '!' :: c :: rest2) =>
      match rest2 with
      | [] => .ok (String.mk nm, "", some (String.mk [c]))
      | ':' :: spec => .ok (String.mk nm, String.mk spec, some (String.mk [c]))
      | _ => .error (.valueError "expected \x27:\x27 after conversion specifier")
  | _ => .error (.valueError "unexpected delimiter in field")

/-- The parse loop; the fuel is at least the remaining character count plus
one, so it never runs out on the initial call from parseFmt. -/
def parseGo : Nat → List Char → Except PyErr (List Seg)
  | 0, _ => .error (.valueError "format parser fuel exhausted")
  | fuel + 1, cs => do
      let (lit, e) ← scanLiteral cs []
      match e with
      | .endOfString =>
          if lit.isEmpty then .ok [] else .ok [⟨String.mk lit, none, none, none⟩]
      | .doubled rest => do
          let segs ← parseGo fuel rest
          .ok (⟨String.mk lit, none, none, none⟩ :: segs)
      | .fieldStart rest => do
          let (fieldText, rest2) ← scanField rest 0 []
          let (nm, spec, conv) ← parseField fieldText
          let segs ← parseGo fuel rest2
          .ok (⟨String.mk lit, some nm, some spec, conv⟩ :: segs)

/-- Model of Formatter.parse (the module-level shared Formatter). -/
def parseFmt (s : String) : Except PyErr (List Seg) :=
  parseGo (s.length + 1) s.data

/-! ### Model of Formatter.get_field and vformat -/

/-- One step of a resolved field path: attribute access or indexing. -/
inductive PathItem where
  | attr (s : String)
  | indexN (n : Nat)
  | indexS (s : String)
  deriving Repr, DecidableEq

/-- Take characters up to the first dot or opening bracket. -/
def splitFirst : List Char → List Char → (List Char × List Char)
  | [], acc => (acc.reverse, [])
  | c :: rest, acc =>
      if c = '.' || c = '[' then (acc.reverse, c :: rest)
      else splitFirst rest (c :: acc)

/-- Scan an index expression to its closing bracket. -/
def scanIndex : List Char → List Char → Except PyErr (List Char × List Char)
  | [], _ => .error (.valueError "Missing \x27]\x27 in format string")
  | ']' :: rest, acc => .ok (acc.reverse, rest)
  | c :: rest, acc => scanIndex rest (c :: acc)

/-- Decimal value of a digit string (only applied to all-digit text). -/
def digitsToNat (cs : List Char) : Nat :=
  cs.foldl (fun a c => 10 * a + (c.toNat - 48)) 0

/-- The first component of a field name: a positional index when it is a
nonempty run of digits, otherwise a keyword name. -/
inductive FirstKey where
  | pos (n : Nat)
  | name (s : String)
  deriving Repr, DecidableEq

/-- Classify the first path component as positional or keyword. -/
def firstKeyOf (cs : List Char) : FirstKey :=
  if !cs.isEmpty && cs.all Char.isDigit then .pos (digitsToNat cs)
  else .name (String.mk cs)

/-- Parse the attribute/index path following the first component. -/
def parsePath : Nat → List Char → Except PyErr (List PathItem)
  | _, [] => .ok []
  | 0, _ => .error (.valueError "field path fuel exhausted")
  | fuel + 1, '.' :: rest =>
      match splitFirst rest [] with
      | ([], _) => .error (.valueError "Empty attribute in format string")
      | (nm, rest2) => do
          let items ← parsePath fuel rest2
          .ok (.attr (String.mk nm) :: items)
  | fuel + 1, '[' :: rest => do
      let (idx, rest2) ← scanIndex rest []
      let items ← parsePath fuel rest2
      if !idx.isEmpty && idx.all Char.isDigit then
        .ok (.indexN (digitsToNat idx) :: items)
      else .ok (.indexS (String.mk idx) :: items)
  | _, _ => .error (.valueError "unexpected character in field path")

/-- Model of formatter_field_name_split. -/
def fieldNameSplit (f : String) : Except PyErr (FirstKey × List PathItem) := do
  let (first, rest) := splitFirst f.data []
  let items ← parsePath (f.length + 1) rest
  .ok (firstKeyOf first, items)

/-- Python f.endswith("()") on the model (match on the last two characters). -/
def endsWithParens (f : String) : Bool :=
  match f.data.reverse with
  | b :: a :: _ => a == '(' && b == ')'
  | _ => false

/-- Python f[:-2] on the model (drop the final two characters). -/
def dropParens (f : String) : String :=
  String.mk (f.data.take (f.data.length - 2))

/-- Invoke a modelled zero-argument callable. -/
def callValue : Value → Except PyErr Value
  | .vFuncOk v => .ok v
  | .vFuncRaises => .error (.valueError "exception raised inside called field")
  | _ => .error (.typeError "object is not callable")

/-- Apply one attribute/index step; the modelled values expose no attributes,
dicts index by string, text indexes by integer position. -/
def applyPathItem (v : Value) : PathItem → Except PyErr Value
  | .attr a => .error (.attributeError ("object has no attribute " ++ pyReprStr a))
  | .indexN n =>
      match v with
      | .vDict _ => .error (.keyError (pyNatStr n))
      | .vStr s =>
          if n < s.data.length then .ok (.vStr (String.mk [s.data.getD n ' ']))
          else .error (.indexError "string index out of range")
      | _ => .error (.typeError "object is not subscriptable")
  | .indexS k =>
      match v with
      | .vDict l => itemE l k
      | .vStr _ => .error (.typeError "string indices must be integers")
      | _ => .error (.typeError "object is not subscriptable")

/-- Apply a whole field path. -/
def applyPath : Value → List PathItem → Except PyErr Value
  | v, [] => .ok v
  | v, item :: rest => do applyPath (← applyPathItem v item) rest

/-- Plain lookup of the first component against the event (the kwargs of
get_field when flattenEvent resolves a field); positional components have no
arguments to index. -/
def getFieldRaw (fieldName : String) (e : Event) : Except PyErr Value := do
  let (first, items) ← fieldNameSplit fieldName
  let obj ←
    match first with
    | .pos _ => .error (.indexError "tuple index out of range")
    | .name k => itemE e k
  applyPath obj items

/-- CallMapping lookup: a key with a call-suffix resolves the base key and
invokes the result with no arguments. -/
def callMappingGet (e : Event) (key : String) : Except PyErr Value := do
  let callit := endsWithParens key
  let realKey := if callit then dropParens key else key
  let value ← itemE e realKey
  if callit then callValue value else .ok value

/-- get_field as used during live rendering: the first component goes
through the CallMapping, the rest of the path is applied directly. -/
def getFieldLive (fieldName : String) (e : Event) : Except PyErr Value := do
  let (first, items) ← fieldNameSplit fieldName
  let obj ←
    match first with
    | .pos _ => .error (.indexError "tuple index out of range")
    | .name k => callMappingGet e k
  applyPath obj items

/-- Model of Formatter.convert_field. -/
def convertField (v : Value) : Option String → Except PyErr Value
  | none => .ok v
  | some "s" => do .ok (.vStr (← pyStr v))
  | some "r" => do .ok (.vStr (← pyRepr v))
  | some "a" => do .ok (.vStr (← pyRepr v))
  | some c => .error (.valueError ("Unknown conversion specifier " ++ c))

/-- Spaces for width padding. -/
def spaces (n : Nat) : String := String.mk (List.replicate n ' ')

/-- Model of builtin format(value, spec), restricted to the empty spec
(which is str) and a bare decimal width (right-aligning numbers and
left-aligning text); other specs are modelled as format errors. -/
def pyFormat (v : Value) (spec : String) : Except PyErr String :=
  if spec = "" then pyStr v
  else if !spec.data.isEmpty && spec.data.all Char.isDigit then
    let width := digitsToNat spec.data
    match v with
    | .vInt n =>
        let s := pyIntStr n
        .ok (spaces (width - s.length) ++ s)
    | .vStr s => .ok (s ++ spaces (width - s.length))
    | _ => .error (.typeError "unsupported format string passed to object.__format__")
  else .error (.valueError ("Invalid format specifier " ++ pyReprStr spec))

/-- Value of an Option String defaulted to the empty string. -/
def orEmpty : Option String → String
  | none => ""
  | some s => s

/-- The vformat loop over parsed segments, with auto-numbering state
(none once manual numbering has been seen). -/
def vformatSegs (e : Event) : List Seg → Option Nat → String → Except PyErr String
  | [], _, acc => .ok acc
  | seg :: rest, auto, acc =>
      let acc' := acc ++ seg.literal
      match seg.fieldName with
      | none => vformatSegs e rest auto acc'
      | some f0 => do
          let (f, auto') ←
            if f0 = "" then
              match auto with
              | none => .error (.valueError
                  "cannot switch from manual field specification to automatic field numbering")
              | some i => .ok (pyNatStr i, some (i + 1))
            else if f0.data.all Char.isDigit then
              match auto with
              | some (_ + 1) => .error (.valueError
                  "cannot switch from manual field specification to automatic field numbering")
              | _ => .ok (f0, (none : Option Nat))
            else .ok (f0, auto)
          let obj ← getFieldLive f e
          let obj ← convertField obj seg.conversion
          let sv ← pyFormat obj (orEmpty seg.formatSpec)
          vformatSegs e rest auto' (acc' ++ sv)

/-- formatWithCall: vformat over a CallMapping wrapping the event, with no
positional arguments. -/
def formatWithCall (formatString : String) (e : Event) : Except PyErr String := do
  let segs ← parseFmt formatString
  vformatSegs e segs (some 0) ""

/-! ### flatFormat, flattenEvent, extractField -/

/-- Python truthiness-based defaulting: conversion or "s". -/
def pyOr (a : Option String) (dflt : String) : String :=
  match a with
  | none => dflt
  | some "" => dflt
  | some s => s

/-- Indexing the log_flattened mapping (which in well-formed events is a
dict, but any value can sit there). -/
def dictItem (fields : Value) (key : String) : Except PyErr Value :=
  match fields with
  | .vDict l => itemE l key
  | .vStr _ => .error (.typeError "string indices must be integers")
  | _ => .error (.typeError "object is not subscriptable")

/-- The flatFormat loop: for every parsed segment (including literal-only
ones) append the literal, recompute the stringified key with conversion
defaulted to s, and append str of the stored value. -/
def flatFormatSegs (fields : Value) : List Seg → KF → String → Except PyErr String
  | [], _, acc => .ok acc
  | seg :: rest, kf, acc => do
      let acc' := acc ++ seg.literal
      let (key, kf') :=
        flatKey kf seg.fieldName seg.formatSpec (some (pyOr seg.conversion "s"))
      let value ← dictItem fields key
      let sv ← pyStr value
      flatFormatSegs fields rest kf' (acc' ++ sv)

/-- Formatter.parse accepts only text in this model. -/
def asParsable (v : Value) : Except PyErr String :=
  match v with
  | .vStr s => .ok s
  | _ => .error (.typeError "format string must be text")

/-- flatFormat: format an event from its log_flattened snapshot. -/
def flatFormatE (e : Event) : Except PyErr String := do
  let fields ← itemE e "log_flattened"
  let fmtv ← itemE e "log_format"
  let fmt ← asParsable fmtv
  let segs ← parseFmt fmt
  flatFormatSegs fields segs [] ""

/-- The flattenEvent loop.  Per segment: force the conversion to s unless it
is exactly r, compute the stringified and structured keys (both bump the
counters), skip if the stringified key is already stored, otherwise strip a
call suffix, resolve, invoke when call-suffixed, stringify, and store both
entries.  (The source selects the conversion function before the invocation
and applies it after; the stored values are the same either way, and its
identity-function branch is unreachable because the conversion was already
forced to s or r.) -/
def flattenSegs (e : Event) :
    List Seg → KF → List (String × Value) → Except PyErr (List (String × Value))
  | [], _, fields => .ok fields
  | seg :: rest, kf, fields => do
      let conversion := if seg.conversion = some "r" then some "r" else some "s"
      let (flattenedKey, kf') := flatKey kf seg.fieldName seg.formatSpec conversion
      let (structuredKey, kf'') := flatKey kf' seg.fieldName seg.formatSpec (some "")
      if containsA fields flattenedKey then
        flattenSegs e rest kf'' fields
      else do
        let (fieldName, callit) ←
          match seg.fieldName with
          | none =>
              .error (.attributeError "NoneType object has no attribute endswith")
          | some f =>
              .ok (if endsWithParens f then (dropParens f, true) else (f, false))
        let fieldValue ← getFieldRaw fieldName e
        let fieldValue ← if callit then callValue fieldValue else .ok fieldValue
        let flattenedValue ←
          if conversion = some "r" then do .ok (Value.vStr (← pyRepr fieldValue))
          else do .ok (Value.vStr (← pyStr fieldValue))
        let fields' := setA (setA fields flattenedKey flattenedValue) structuredKey fieldValue
        flattenSegs e rest kf'' fields'

/-- flattenEvent: no-op without log_format, else store the computed fields
dict under log_flattened (returning the mutated event). -/
def flattenEventE (e : Event) : Except PyErr Event :=
  if containsA e "log_format" then do
    let fmtv ← itemE e "log_format"
    let fmt ← asParsable fmtv
    let segs ← parseFmt fmt
    let fields ← flattenSegs e segs [] []
    .ok (setA e "log_flattened" (.vDict fields))
  else .ok e

/-- The flattenEvent loop instrumented with a trace of the field names it
resolves against the event (one entry per get_field call); identical to
flattenSegs otherwise. -/
def flattenSegsT (e : Event) :
    List Seg → KF → List (String × Value) → List String →
      Except PyErr (List (String × Value) × List String)
  | [], _, fields, tr => .ok (fields, tr)
  | seg :: rest, kf, fields, tr => do
      let conversion := if seg.conversion = some "r" then some "r" else some "s"
      let (flattenedKey, kf') := flatKey kf seg.fieldName seg.formatSpec conversion
      let (structuredKey, kf'') := flatKey kf' seg.fieldName seg.formatSpec (some "")
      if containsA fields flattenedKey then
        flattenSegsT e rest kf'' fields tr
      else do
        let (fieldName, callit) ←
          match seg.fieldName with
          | none =>
              .error (.attributeError "NoneType object has no attribute endswith")
          | some f =>
              .ok (if endsWithParens f then (dropParens f, true) else (f, false))
        let fieldValue ← getFieldRaw fieldName e
        let fieldValue ← if callit then callValue fieldValue else .ok fieldValue
        let flattenedValue ←
          if conversion = some "r" then do .ok (Value.vStr (← pyRepr fieldValue))
          else do .ok (Value.vStr (← pyStr fieldValue))
        let fields' := setA (setA fields flattenedKey flattenedValue) structuredKey fieldValue
        flattenSegsT e rest kf'' fields' (tr ++ [fieldName])

/-- The trace of field resolutions performed by flattenEvent. -/
def flattenTrace (e : Event) : Except PyErr (List String) :=
  if containsA e "log_format" then do
    let fmtv ← itemE e "log_format"
    let fmt ← asParsable fmtv
    let segs ← parseFmt fmt
    let (_, tr) ← flattenSegsT e segs [] [] []
    .ok tr
  else .ok []

/-- extractField: parse the expression as a single field, compute its key
with the conversion exactly as requested (structured when absent), flatten
the event when log_flattened is absent, and index the snapshot. -/
def extractFieldE (field : String) (e : Event) : Except PyErr Value := do
  let segs ← parseFmt ("\x7b" ++ field ++ "\x7d")
  let seg ←
    match segs with
    | [s] => .ok s
    | _ => .error (.valueError "too many values to unpack")
  let (key, _) := flatKey [] seg.fieldName seg.formatSpec seg.conversion
  let e' ← if containsA e "log_flattened" then .ok e else flattenEventE e
  let fl ← itemE e' "log_flattened"
  dictItem fl key

/-! ### formatEvent and the unformattable fallback -/

/-- Python `value is None` on the model. -/
def isNone : Value → Bool
  | .vNone => true
  | _ => false

/-- Coerce log_format to text: decode UTF-8 bytes, keep text, and reject
anything else with a TypeError whose message interpolates the repr of the
offending value (so a value whose repr raises propagates that error
instead, exactly as evaluating the .format call in the raise statement
would). -/
def coerceFormat (v : Value) : Except PyErr String :=
  match v with
  | .vStr s => .ok s
  | .vBytes (some s) => .ok s
  | .vBytes none => .error .unicodeDecodeError
  | other =>
      match pyRepr other with
      | .ok r => .error (.typeError ("Log format must be unicode or bytes, not " ++ r))
      | .error err => .error err

/-- The try-block of formatEvent: flattened rendering when log_flattened is
present, empty text when log_format is absent or None, live rendering
otherwise. -/
def formatEventBody (e : Event) : Except PyErr String :=
  if containsA e "log_flattened" then flatFormatE e
  else
    let format := getD e "log_format" .vNone
    if isNone format then .ok ""
    else do
      let fmt ← coerceFormat format
      formatWithCall fmt e

/-- Tier 1 of formatUnformattableEvent: a repr of the whole event plus the
str of the error; fails when the event repr fails. -/
def formatUnformattableTier1 (e : Event) (error : PyErr) : Except PyErr String := do
  let r ← pyRepr (.vDict e)
  .ok ("Unable to format event " ++ r ++ ": " ++ errStr error)

/-- Model of the rendering of a twisted Failure captured in the tier-2
handler (the traceback of the tier-1 failure). -/
def failureText (err : PyErr) : String :=
  "Traceback: " ++ errStr err

/-- Tier 2 of formatUnformattableEvent: built exclusively from safe_repr,
so it is total. -/
def formatUnformattableTier2 (e : Event) (error : PyErr) (tier1Err : PyErr) : String :=
  let text := String.intercalate ", "
    (e.map fun kv => safe_repr (.vStr kv.1) ++ " = " ++ safe_repr kv.2)
  "MESSAGE LOST: unformattable object logged: " ++ errReprStr error ++
    "\nRecoverable data: " ++ text ++
    "\nException during formatting:\n" ++ failureText tier1Err

/-- formatUnformattableEvent: tier 1, falling back to tier 2 when the event
repr itself fails. -/
def formatUnformattableEvent (e : Event) (error : PyErr) : String :=
  match formatUnformattableTier1 e error with
  | .ok s => s
  | .error err1 => formatUnformattableTier2 e error err1

/-- formatEvent: the single never-raising boundary; any failure of the body
is converted to fallback text. -/
def formatEvent (e : Event) : String :=
  match formatEventBody e with
  | .ok s => s
  | .error err => formatUnformattableEvent e err

/-- formatEvent with the exception channel kept visible: the try-block runs
and the except-handler returns the fallback text rather than propagating
(an exception escaping the handler would appear here as an error value). -/
def formatEventE (e : Event) : Except PyErr String :=
  match formatEventBody e with
  | .ok s => .ok s
  | .error err => .ok (formatUnformattableEvent e err)

/-! ### formatTime and the classic log line -/

/-- The default time format (RFC 3339 with numeric offset). -/
def timeFormatRFC3339 : String := "%Y-%m-%dT%H:%M:%S%z"

/-- formatTime.  The strftime rendering of a concrete timestamp depends on
the host timezone database (FixedOffsetTimeZone.fromLocalTimeStamp consults
the platform), so it is abstracted as the render argument; the None checks
and defaults are the code under verification. -/
def formatTime (render : Value → Value → Except PyErr String) (when : Value)
    (timeFormat : Value := .vStr timeFormatRFC3339) (default : String := "-") :
    Except PyErr String :=
  if isNone timeFormat || isNone when then .ok default
  else render when timeFormat

/-- formatEventAsClassicLogText, parameterized by the time formatter exactly
as the source is.  Returns none when the formatted event text is empty. -/
def formatEventAsClassicLogText (ftime : Value → Except PyErr String) (e : Event) :
    Except PyErr (Option String) := do
  let eventText := formatEvent e
  if eventText = "" then .ok none
  else do
    let eventText' := String.mk (indentNewlines eventText.data)
    let timeStamp ← ftime (getD e "log_time" .vNone)
    let system ←
      match getD e "log_system" .vNone with
      | .vNone => do
          let levelName ←
            match getD e "log_level" .vNone with
            | .vNone => .ok "-"
            | .vLevel nm => .ok nm
            | _ => .error (.attributeError "object has no attribute name")
          let ns ← pyFormat (getD e "log_namespace" (.vStr "-")) ""
          let lv ← pyFormat (.vStr levelName) ""
          .ok (ns ++ "#" ++ lv)
      | sysv =>
          .ok (match pyStr sysv with
               | .ok s => s
               | .error _ => "UNFORMATTABLE")
    .ok (some (timeStamp ++ " [" ++ system ++ "] " ++ eventText' ++ "\n"))

/-! ## Supporting lemmas -/

theorem lookupA_setA_self {β : Type} (l : List (String × β)) (k : String) (v : β) :
    lookupA (setA l k v) k = some v := by
  induction l with
  | nil => simp [setA, lookupA]
  | cons kv rest ih =>
      obtain ⟨k0, v0⟩ := kv
      by_cases h : k0 = k <;> simp [setA, lookupA, h, ih]

theorem lookupA_setA_ne {β : Type} (l : List (String × β)) {k k' : String} (v : β)
    (h : k' ≠ k) : lookupA (setA l k v) k' = lookupA l k' := by
  have hne : ¬ (k = k') := fun hh => h hh.symm
  induction l with
  | nil => simp [setA, lookupA, hne]
  | cons kv rest ih =>
      obtain ⟨k0, v0⟩ := kv
      by_cases h0 : k0 = k
      · subst h0
        simp [setA, lookupA, hne]
      · simp [setA, lookupA, h0, ih]

theorem kfGet_setA_self (kf : KF) (k : String) (n : Nat) :
    kfGet (setA kf k n) k = n := by
  simp [kfGet, lookupA_setA_self]

theorem kfGet_setA_ne (kf : KF) {k k' : String} (n : Nat) (h : k' ≠ k) :
    kfGet (setA kf k n) k' = kfGet kf k' := by
  simp [kfGet, lookupA_setA_ne _ _ h]

theorem containsA_setA {β : Type} (l : List (String × β)) (k k' : String) (v : β)
    (h : containsA l k' = true) : containsA (setA l k v) k' = true := by
  by_cases hk : k' = k
  · subst hk
    simp [containsA, lookupA_setA_self]
  · simpa [containsA, lookupA_setA_ne _ _ hk] using h

theorem digitChar_inj :
    ∀ a : Nat, a < 10 → ∀ b : Nat, b < 10 →
      Nat.digitChar a = Nat.digitChar b → a = b := by decide

theorem map_digitChar_inj :
    ∀ l1 l2 : List Nat, (∀ d ∈ l1, d < 10) → (∀ d ∈ l2, d < 10) →
      l1.map Nat.digitChar = l2.map Nat.digitChar → l1 = l2 := by
  intro l1
  induction l1 with
  | nil =>
      intro l2 _ _ h
      cases l2 with
      | nil => rfl
      | cons b t => simp at h
  | cons a t ih =>
      intro l2 h1 h2 h
      cases l2 with
      | nil => simp at h
      | cons b t2 =>
          simp only [List.map_cons, List.cons.injEq] at h
          have ha : a = b :=
            digitChar_inj a (h1 a (by simp)) b (h2 b (by simp)) h.1
          have ht : t = t2 :=
            ih t2 (fun d hd => h1 d (by simp [hd])) (fun d hd => h2 d (by simp [hd])) h.2
          rw [ha, ht]

theorem natDigitsAux_eq_digits :
    ∀ (fuel n : Nat), n < fuel →
      natDigitsAux fuel n = (Nat.digits 10 n).reverse.map Nat.digitChar := by
  intro fuel
  induction fuel with
  | zero => intro n hn; omega
  | succ f ih =>
      intro n hn
      by_cases h0 : n = 0
      · simp [natDigitsAux, h0]
      · have hpos : 0 < n := Nat.pos_of_ne_zero h0
        have hlt : n / 10 < f := by
          have := Nat.div_lt_self hpos (by norm_num : (1:Nat) < 10)
          omega
        rw [natDigitsAux, if_neg h0, ih _ hlt,
          Nat.digits_def' (by norm_num : (1:Nat) < 10) hpos]
        simp

theorem pyNatStr_eq_digits (n : Nat) :
    pyNatStr n =
      if n = 0 then "0"
      else String.mk ((Nat.digits 10 n).reverse.map Nat.digitChar) := by
  by_cases h : n = 0
  · simp [pyNatStr, h]
  · rw [pyNatStr, if_neg h, if_neg h,
      natDigitsAux_eq_digits (n + 1) n (Nat.lt_succ_self n)]

theorem digits_rev_lt_base (n : Nat) :
    ∀ d ∈ (Nat.digits 10 n).reverse, d < 10 := by
  intro d hd
  exact Nat.digits_lt_base (by norm_num) (List.mem_reverse.mp hd)

theorem pyNatStr_ne_zero_text : ∀ n : Nat, n ≠ 0 → pyNatStr n ≠ "0" := by
  intro n hn h
  rw [pyNatStr_eq_digits, if_neg hn] at h
  have hd := congrArg String.data h
  have hmap : (Nat.digits 10 n).reverse.map Nat.digitChar = ['0'] := hd
  have hrev : (Nat.digits 10 n).reverse = [0] := by
    refine map_digitChar_inj _ [0] (digits_rev_lt_base n) (by simp) ?_
    rw [hmap]; rfl
  have hdig : Nat.digits 10 n = [0] := by
    have := congrArg List.reverse hrev
    simpa using this
  have hzero : n = 0 := by
    have h1 := Nat.ofDigits_digits 10 n
    rw [hdig] at h1
    simpa using h1.symm
  exact hn hzero

theorem pyNatStr_inj : ∀ m n : Nat, pyNatStr m = pyNatStr n → m = n := by
  intro m n h
  by_cases hm : m = 0 <;> by_cases hn : n = 0
  · rw [hm, hn]
  · exact absurd (by simpa [pyNatStr, hm] using h.symm) (pyNatStr_ne_zero_text n hn)
  · exact absurd (by simpa [pyNatStr, hn] using h) (pyNatStr_ne_zero_text m hm)
  · rw [pyNatStr_eq_digits, pyNatStr_eq_digits, if_neg hm, if_neg hn] at h
    have hd := congrArg String.data h
    have hrev := map_digitChar_inj _ _ (digits_rev_lt_base m) (digits_rev_lt_base n) hd
    have hdig : Nat.digits 10 m = Nat.digits 10 n := by
      have := congrArg List.reverse hrev
      simpa using this
    have h1 := Nat.ofDigits_digits 10 m
    have h2 := Nat.ofDigits_digits 10 n
    rw [hdig] at h1
    rw [h2] at h1
    exact h1.symm

theorem str_append_right_inj (s : String) {a b : String} (h : s ++ a = s ++ b) :
    a = b := by
  have hd := congrArg String.data h
  simp only [String.data_append] at hd
  exact String.ext (List.append_cancel_left hd)

theorem append_mid_inj {a : Char} :
    ∀ (l1 l2 r1 r2 : List Char), a ∉ l1 → a ∉ l2 →
      l1 ++ a :: r1 = l2 ++ a :: r2 → l1 = l2 ∧ r1 = r2 := by
  intro l1
  induction l1 with
  | nil =>
      intro l2 r1 r2 _ h2 h
      cases l2 with
      | nil => simpa using h
      | cons b t =>
          exfalso
          simp only [List.nil_append, List.cons_append, List.cons.injEq] at h
          exact h2 (by simp [← h.1])
  | cons b t ih =>
      intro l2 r1 r2 h1 h2 h
      cases l2 with
      | nil =>
          exfalso
          simp only [List.cons_append, List.nil_append, List.cons.injEq] at h
          exact h1 (by simp [h.1])
      | cons c t2 =>
          simp only [List.cons_append, List.cons.injEq] at h
          have hbc : b = c := h.1
          have ht := ih t2 r1 r2 (fun hm => h1 (by simp [hm])) (fun hm => h2 (by simp [hm])) h.2
          exact ⟨by rw [hbc, ht.1], ht.2⟩

/-- The state of one KeyFlattener after n+1 identical flatKey calls starting
from a fresh instance, paired with the key the last call returned. -/
def iterFlatKey (f sp c : Option String) : Nat → String × KF
  | 0 => flatKey [] f sp c
  | n + 1 => flatKey (iterFlatKey f sp c n).2 f sp c

theorem iterFlatKey_state (f sp c : Option String) :
    ∀ n : Nat, (iterFlatKey f sp c n).2 = [(flatKeyCanonical f sp c, n + 1)] := by
  intro n
  induction n with
  | zero => simp [iterFlatKey, flatKey, kfGet, lookupA, setA]
  | succ m ih =>
      show (flatKey (iterFlatKey f sp c m).2 f sp c).2 = _
      rw [ih]
      simp [flatKey, kfGet, lookupA, setA]

theorem iterFlatKey_key (f sp c : Option String) :
    ∀ n : Nat, (iterFlatKey f sp c n).1 =
      if n = 0 then flatKeyCanonical f sp c
      else flatKeyCanonical f sp c ++ "/" ++ pyNatStr (n + 1) := by
  intro n
  cases n with
  | zero => simp [iterFlatKey, flatKey, kfGet, lookupA, setA]
  | succ m =>
      show (flatKey (iterFlatKey f sp c m).2 f sp c).1 = _
      rw [iterFlatKey_state]
      simp [flatKey, kfGet, lookupA, setA]

/-! ## Key shape analysis -/

theorem except_bind_ok {ε α β : Type} (a : α) (f : α → Except ε β) :
    ((Except.ok a : Except ε α) >>= f) = f a := rfl

theorem except_bind_error {ε α β : Type} (err : ε) (f : α → Except ε β) :
    ((Except.error err : Except ε α) >>= f) = .error err := rfl

theorem str_append_empty (s : String) : s ++ "" = s := by
  apply String.ext
  simp [String.data_append]

theorem str_append_assoc (a b c : String) : a ++ b ++ c = a ++ (b ++ c) := by
  apply String.ext
  simp [String.data_append]

/-- The canonical key fieldName!conversion:formatSpec as a plain function of
the three texts. -/
def canonSp (f c sp : String) : String := f ++ "!" ++ c ++ ":" ++ sp

/-- The counter suffix of the nth key for one canonical key: nothing for the
first occurrence, slash-count afterwards. -/
def sfxOf (n : Nat) : List Char :=
  if n = 1 then [] else '/' :: (pyNatStr n).data

/-- The key flatKey returns when the post-increment count is n. -/
def keyN (f c sp : String) (n : Nat) : String :=
  if n = 1 then canonSp f c sp else canonSp f c sp ++ "/" ++ pyNatStr n

/-- A field name with no exclamation point (every simple name qualifies;
Formatter.parse only yields a bang inside square brackets). -/
def NoBang (f : String) : Prop := '!' ∉ f.data

theorem keyN_data (f c sp : String) (n : Nat) :
    (keyN f c sp n).data =
      f.data ++ '!' :: (c.data ++ ':' :: (sp.data ++ sfxOf n)) := by
  by_cases h : n = 1 <;>
    simp [keyN, sfxOf, h, canonSp, String.data_append]

theorem flatKey_some (kf : KF) (f sp c : String) :
    flatKey kf (some f) (some sp) (some c) =
      (keyN f c sp (kfGet kf (canonSp f c sp) + 1),
        setA kf (canonSp f c sp) (kfGet kf (canonSp f c sp) + 1)) := by
  simp [flatKey, flatKeyCanonical, canonSp, keyN, kfGet_setA_self]

theorem sfxOf_inj {m n : Nat} (hm : 1 ≤ m) (hn : 1 ≤ n)
    (h : sfxOf m = sfxOf n) : m = n := by
  by_cases h1 : m = 1 <;> by_cases h2 : n = 1
  · omega
  · rw [sfxOf, sfxOf, if_pos h1, if_neg h2] at h
    cases h
  · rw [sfxOf, sfxOf, if_neg h1, if_pos h2] at h
    cases h
  · rw [sfxOf, sfxOf, if_neg h1, if_neg h2] at h
    have := pyNatStr_inj m n (String.ext (by injection h))
    exact this

/-- A stringified key (conversion s or r) never coincides with a structured
key (empty conversion), whatever the field names, specs and counts, as long
as the field names hold no bang: the character after the first bang differs. -/
theorem key_flat_ne_struct {f g : String} (hf : NoBang f) (hg : NoBang g)
    {c : String} (hc : c = "s" ∨ c = "r") (sp sp' : String) (m n : Nat) :
    keyN f c sp m ≠ keyN g "" sp' n := by
  intro h
  have hd := congrArg String.data h
  rw [keyN_data, keyN_data] at hd
  obtain ⟨-, h2⟩ := append_mid_inj _ _ _ _ hf hg hd
  rcases hc with rfl | rfl <;> simp at h2

/-- Injectivity of stringified keys with empty specs: equal keys come from
the same bang-free field name, the same conversion among s and r, and the
same count. -/
theorem key_flat_inj {f g : String} (hf : NoBang f) (hg : NoBang g)
    {c d : String} (hc : c = "s" ∨ c = "r") (hd : d = "s" ∨ d = "r")
    {m n : Nat} (hm : 1 ≤ m) (hn : 1 ≤ n)
    (h : keyN f c "" m = keyN g d "" n) : f = g ∧ c = d ∧ m = n := by
  have hdata := congrArg String.data h
  rw [keyN_data, keyN_data] at hdata
  obtain ⟨hfg, h2⟩ := append_mid_inj _ _ _ _ hf hg hdata
  have hfg' : f = g := String.ext hfg
  rcases hc with rfl | rfl <;> rcases hd with rfl | rfl <;> simp at h2
  · exact ⟨hfg', rfl, sfxOf_inj hm hn h2⟩
  · exact ⟨hfg', rfl, sfxOf_inj hm hn h2⟩

/-! ## Segment predicates and resolution lemmas -/

/-- A conversion the snapshot machinery agrees on: absent, s, or r. -/
def ConvOK (o : Option String) : Prop :=
  o = none ∨ o = some "s" ∨ o = some "r"

/-- A character that can appear in a simple field name: no separators, no
brackets or parentheses, no braces, no bang, colon or slash. -/
def SimpleChar (ch : Char) : Prop :=
  ch ∉ (['.', '[', ']', '(', ')', '\x7b', '\x7d', '!', ':', '/'] : List Char)

/-- A simple field name: a nonempty, not-all-digits run of simple
characters, optionally with a call suffix of parentheses. -/
def SimpleName (f : String) : Prop :=
  ∃ g : List Char, (f.data = g ∨ f.data = g ++ ['(', ')']) ∧ g ≠ [] ∧
    (∀ ch ∈ g, SimpleChar ch) ∧ g.all Char.isDigit ≠ true

/-- A segment within the scope of the amended C5: a real field reference
whose name holds no bang and whose conversion is recognized. -/
def C5Seg (seg : Seg) : Prop :=
  ∃ f sp, seg.fieldName = some f ∧ seg.formatSpec = some sp ∧ NoBang f ∧
    ConvOK seg.conversion

/-- A segment within the scope of the amended C2 and C4: a simple field
reference with an empty format spec and a recognized conversion. -/
def C2Seg (seg : Seg) : Prop :=
  ∃ f, seg.fieldName = some f ∧ SimpleName f ∧ seg.formatSpec = some "" ∧
    ConvOK seg.conversion

theorem simpleName_noBang {f : String} (h : SimpleName f) : NoBang f := by
  obtain ⟨g, hcase, -, hgood, -⟩ := h
  have hging : '!' ∉ g := by
    intro hmem
    have := hgood '!' hmem
    simp [SimpleChar] at this
  intro hmem
  rcases hcase with hfd | hfd <;> rw [hfd] at hmem
  · exact hging hmem
  · rcases List.mem_append.mp hmem with hm | hm
    · exact hging hm
    · simp at hm

theorem endsWithParens_of_data {f : String} {g : List Char}
    (h : f.data = g ++ ['(', ')']) : endsWithParens f = true := by
  simp [endsWithParens, h]

theorem endsWithParens_false_of_simple {f : String} {g : List Char}
    (h : f.data = g) (hgood : ∀ ch ∈ g, SimpleChar ch) :
    endsWithParens f = false := by
  unfold endsWithParens
  rcases hr : f.data.reverse with - | ⟨b, - | ⟨a, t⟩⟩
  · rfl
  · rfl
  · have hbmem : b ∈ f.data := by
      have : b ∈ f.data.reverse := by rw [hr]; simp
      exact List.mem_reverse.mp this
    rw [h] at hbmem
    have := hgood b hbmem
    simp only [SimpleChar] at this
    have hbne : ¬ (b = ')') := by intro hh; rw [hh] at this; simp at this
    simp [hbne]

theorem dropParens_of_data {f : String} {g : List Char}
    (h : f.data = g ++ ['(', ')']) : dropParens f = String.mk g := by
  rw [dropParens, h]
  congr 1
  rw [List.length_append]
  simp [List.take_left]

theorem splitFirst_clean :
    ∀ (cs acc : List Char), (∀ ch ∈ cs, ¬(ch = '.' ∨ ch = '[')) →
      splitFirst cs acc = (acc.reverse ++ cs, []) := by
  intro cs
  induction cs with
  | nil => intro acc _; simp [splitFirst]
  | cons c rest ih =>
      intro acc h
      have hc : ¬(c = '.' ∨ c = '[') := h c (by simp)
      have hcb : ¬(c = '.' || c = '[') = true := by
        simp only [Bool.or_eq_true, decide_eq_true_eq]
        exact hc
      rw [splitFirst, if_neg hcb, ih (c :: acc) (fun ch hm => h ch (by simp [hm]))]
      simp

theorem parsePath_nil : ∀ fuel : Nat, parsePath fuel [] = .ok [] := by
  intro fuel
  cases fuel <;> rfl

/-- Field resolution and invocation as flattenEvent performs it: strip a
call suffix, resolve with get_field against the raw event, invoke when
call-suffixed. -/
def resolveField (e : Event) (f : String) : Except PyErr Value :=
  if endsWithParens f then getFieldRaw (dropParens f) e >>= callValue
  else getFieldRaw f e

/-- Field resolution and invocation reduced to a plain event lookup, the
common form both the live path and the flattening path take on simple
names. -/
def resolveSimple (e : Event) (f : String) : Except PyErr Value :=
  if endsWithParens f then itemE e (dropParens f) >>= callValue
  else itemE e f

theorem getFieldRaw_simple (nm : String) (e : Event)
    (hsep : ∀ ch ∈ nm.data, ¬(ch = '.' ∨ ch = '['))
    (hdig : ¬ nm.data.all Char.isDigit = true) :
    getFieldRaw nm e = itemE e nm := by
  unfold getFieldRaw fieldNameSplit
  rw [splitFirst_clean _ _ hsep]
  simp only [List.reverse_nil, List.nil_append]
  rw [parsePath_nil]
  have hfk : firstKeyOf nm.data = .name nm := by
    unfold firstKeyOf
    have hnc : ¬(!nm.data.isEmpty && nm.data.all Char.isDigit) = true := by
      simp only [Bool.and_eq_true]
      intro hh
      exact hdig hh.2
    rw [if_neg hnc]
  simp only [except_bind_ok, hfk]
  cases hit : itemE e nm <;> simp [except_bind_ok, except_bind_error, hit, applyPath]

theorem simpleName_facts {f : String} (h : SimpleName f) :
    (∀ ch ∈ f.data, ¬(ch = '.' ∨ ch = '[')) ∧
      ¬ f.data.all Char.isDigit = true ∧ f.data ≠ [] := by
  obtain ⟨g, hcase, hne, hgood, hdig⟩ := h
  have hsepg : ∀ ch ∈ g, ¬(ch = '.' ∨ ch = '[') := by
    intro ch hm hor
    have := hgood ch hm
    rcases hor with rfl | rfl <;> simp [SimpleChar] at this
  rcases hcase with hfd | hfd <;> rw [hfd]
  · refine ⟨hsepg, hdig, hne⟩
  · refine ⟨?_, ?_, by simp⟩
    · intro ch hm
      rcases List.mem_append.mp hm with hm | hm
      · exact hsepg ch hm
      · intro hor
        rcases hor with rfl | rfl <;> simp at hm
    · simp only [List.all_append]
      intro hh
      have := (Bool.and_eq_true _ _).mp hh
      simpa using this.2

theorem resolveField_simple (e : Event) (f : String) (h : SimpleName f) :
    resolveField e f = resolveSimple e f := by
  obtain ⟨g, hcase, hne, hgood, hdig⟩ := h
  rcases hcase with hfd | hfd
  · rw [resolveField, resolveSimple,
      endsWithParens_false_of_simple hfd hgood]
    simp only [Bool.false_eq_true, if_false]
    exact getFieldRaw_simple f e (simpleName_facts ⟨g, Or.inl hfd, hne, hgood, hdig⟩).1
      (simpleName_facts ⟨g, Or.inl hfd, hne, hgood, hdig⟩).2.1
  · rw [resolveField, resolveSimple, endsWithParens_of_data hfd]
    simp only [if_true]
    rw [dropParens_of_data hfd]
    rw [getFieldRaw_simple (String.mk g) e ?_ ?_]
    · intro ch hm
      exact fun hor => absurd hor ((fun hh => hh) (by
        have := hgood ch hm
        intro hor2
        rcases hor2 with rfl | rfl <;> simp [SimpleChar] at this) : ¬(ch = '.' ∨ ch = '['))
    · exact hdig

theorem getFieldLive_simple (f : String) (e : Event) (h : SimpleName f) :
    getFieldLive f e = resolveSimple e f := by
  obtain ⟨hsep, hdig, hne⟩ := simpleName_facts h
  unfold getFieldLive fieldNameSplit
  rw [splitFirst_clean _ _ hsep]
  simp only [List.reverse_nil, List.nil_append]
  rw [parsePath_nil]
  have hfk : firstKeyOf f.data = .name f := by
    unfold firstKeyOf
    have hnc : ¬(!f.data.isEmpty && f.data.all Char.isDigit) = true := by
      simp only [Bool.and_eq_true]
      intro hh
      exact hdig hh.2
    rw [if_neg hnc]
  simp only [except_bind_ok, hfk]
  rw [show callMappingGet e f =
        (if endsWithParens f then itemE e (dropParens f) else itemE e f) >>=
          (fun v => if endsWithParens f then callValue v else .ok v) from ?_]
  · cases hpar : endsWithParens f <;>
      cases hit : itemE e (if endsWithParens f then dropParens f else f) <;>
        simp_all [resolveSimple, except_bind_ok, except_bind_error, applyPath] <;>
          cases hc : callValue _ <;> simp [except_bind_ok, except_bind_error, hc, applyPath]
  · unfold callMappingGet
    cases hpar : endsWithParens f <;> simp [hpar]

/-! ## One step of the flattening loop, characterized -/

/-- The effective conversion flattenEvent uses for a segment: r when the
parsed conversion is exactly r, else s. -/
def stepConv (seg : Seg) : String :=
  if seg.conversion = some "r" then "r" else "s"

/-- The canonical key of the stringified entry of a segment. -/
def flatCanon (seg : Seg) (f sp : String) : String :=
  canonSp f (stepConv seg) sp

/-- The canonical key of the structured entry for a field and spec. -/
def structCanon (f sp : String) : String := canonSp f "" sp

/-- The key flattener state after the two flatKey calls of one step. -/
def stepState (kf : KF) (f sp : String) (seg : Seg) : KF :=
  let kf1 := setA kf (flatCanon seg f sp) (kfGet kf (flatCanon seg f sp) + 1)
  setA kf1 (structCanon f sp) (kfGet kf1 (structCanon f sp) + 1)

/-- The stringified key of one step. -/
def stepFlatKey (kf : KF) (f sp : String) (seg : Seg) : String :=
  keyN f (stepConv seg) sp (kfGet kf (flatCanon seg f sp) + 1)

/-- The structured key of one step. -/
def stepStructKey (kf : KF) (f sp : String) (seg : Seg) : String :=
  keyN f "" sp
    (kfGet (setA kf (flatCanon seg f sp) (kfGet kf (flatCanon seg f sp) + 1))
      (structCanon f sp) + 1)

/-- The display string flattenEvent stores for a segment. -/
def dispOf (seg : Seg) (v : Value) : Except PyErr String :=
  if stepConv seg = "r" then pyRepr v else pyStr v

theorem stepConv_cases (seg : Seg) : stepConv seg = "s" ∨ stepConv seg = "r" := by
  unfold stepConv
  by_cases h : seg.conversion = some "r" <;> simp [h]

theorem stepConv_pyOr {seg : Seg} (h : ConvOK seg.conversion) :
    pyOr seg.conversion "s" = stepConv seg := by
  rcases h with h | h | h <;> simp [pyOr, stepConv, h]

theorem canonSp_eq_keyN_one (f c sp : String) : canonSp f c sp = keyN f c sp 1 := by
  simp [keyN]

theorem kfGet_stepState_mono (kf : KF) (f sp : String) (seg : Seg) (X : String) :
    kfGet kf X ≤ kfGet (stepState kf f sp seg) X := by
  unfold stepState
  by_cases hS : X = structCanon f sp
  · subst hS
    rw [kfGet_setA_self]
    by_cases hC : structCanon f sp = flatCanon seg f sp
    · rw [hC, kfGet_setA_self, ← hC]
      omega
    · rw [kfGet_setA_ne _ _ hC]
      omega
  · rw [kfGet_setA_ne _ _ hS]
    by_cases hC : X = flatCanon seg f sp
    · subst hC
      rw [kfGet_setA_self]
      omega
    · rw [kfGet_setA_ne _ _ hC]

theorem pyFormat_empty (v : Value) : pyFormat v "" = pyStr v := by
  simp [pyFormat]

/-- Inversion of one step of the flattening loop on a field segment: either
the stringified key is already stored and the step only advances the
counters, or the field is resolved (and possibly invoked), stringified per
the effective conversion, and both entries are stored. -/
theorem flattenSegs_cons_inv (e : Event) (seg : Seg) (rest : List Seg) (kf : KF)
    (fields fieldsFinal : List (String × Value)) (f sp : String)
    (hf : seg.fieldName = some f) (hsp : seg.formatSpec = some sp)
    (h : flattenSegs e (seg :: rest) kf fields = .ok fieldsFinal) :
    (containsA fields (stepFlatKey kf f sp seg) = true ∧
        flattenSegs e rest (stepState kf f sp seg) fields = .ok fieldsFinal) ∨
    (containsA fields (stepFlatKey kf f sp seg) = false ∧
      ∃ v disp, resolveField e f = .ok v ∧ dispOf seg v = .ok disp ∧
        flattenSegs e rest (stepState kf f sp seg)
          (setA (setA fields (stepFlatKey kf f sp seg) (.vStr disp))
            (stepStructKey kf f sp seg) v) = .ok fieldsFinal) := by
  have hconv : (if seg.conversion = some "r" then some "r" else some "s") =
      some (stepConv seg) := by
    unfold stepConv
    by_cases hc : seg.conversion = some "r" <;> simp [hc]
  rw [flattenSegs, hconv, hf, hsp, flatKey_some] at h
  dsimp only at h
  rw [flatKey_some] at h
  dsimp only at h
  by_cases hct : containsA fields (stepFlatKey kf f sp seg) = true
  · left
    refine ⟨hct, ?_⟩
    rw [show stepFlatKey kf f sp seg =
          keyN f (stepConv seg) sp (kfGet kf (canonSp f (stepConv seg) sp) + 1)
        from rfl] at hct
    rw [hct] at h
    simpa [stepState, flatCanon, structCanon] using h
  · right
    have hcf : containsA fields
        (keyN f (stepConv seg) sp (kfGet kf (canonSp f (stepConv seg) sp) + 1)) = false := by
      simpa [stepFlatKey, flatCanon] using Bool.not_eq_true _ ▸ hct
    refine ⟨by simpa [stepFlatKey, flatCanon] using hcf, ?_⟩
    rw [hcf] at h
    simp only [Bool.false_eq_true, if_false] at h
    cases hpar : endsWithParens f <;> rw [hpar] at h
    · simp only [Bool.false_eq_true, if_false, except_bind_ok] at h
      cases hr : getFieldRaw f e with
      | error err =>
          rw [hr] at h
          simp [except_bind_error] at h
      | ok v =>
        rw [hr] at h
        simp only [except_bind_ok] at h
        refine ⟨v, ?_⟩
        have hrf : resolveField e f = .ok v := by
          rw [resolveField, hpar]
          simpa using hr
        by_cases hcs : stepConv seg = "r"
        · rw [hcs] at h
          rw [if_pos rfl] at h
          cases hd : pyRepr v with
          | error err =>
              rw [hd] at h
              simp [except_bind_error] at h
          | ok disp =>
            rw [hd] at h
            refine ⟨disp, hrf, by simp [dispOf, hcs, hd], ?_⟩
            simpa [stepState, stepFlatKey, stepStructKey, flatCanon, structCanon, hcs,
              except_bind_ok] using h
        · have hcs' : stepConv seg = "s" := by
            rcases stepConv_cases seg with hh | hh
            · exact hh
            · exact absurd hh hcs
          rw [hcs'] at h
          rw [if_neg (by decide)] at h
          cases hd : pyStr v with
          | error err =>
              rw [hd] at h
              simp [except_bind_error] at h
          | ok disp =>
            rw [hd] at h
            refine ⟨disp, hrf, by simp [dispOf, hcs', hcs, hd], ?_⟩
            simpa [stepState, stepFlatKey, stepStructKey, flatCanon, structCanon, hcs',
              except_bind_ok] using h
    · simp only [if_true, except_bind_ok] at h
      cases hr : getFieldRaw (dropParens f) e with
      | error err =>
          rw [hr] at h
          simp [except_bind_error] at h
      | ok v0 =>
        rw [hr] at h
        simp only [except_bind_ok] at h
        cases hcv : callValue v0 with
        | error err =>
            rw [hcv] at h
            simp [except_bind_error] at h
        | ok v =>
          rw [hcv] at h
          simp only [except_bind_ok] at h
          refine ⟨v, ?_⟩
          have hrf : resolveField e f = .ok v := by
            rw [resolveField, hpar]
            simp [except_bind_ok, hr, hcv]
          by_cases hcs : stepConv seg = "r"
          · rw [hcs] at h
            rw [if_pos rfl] at h
            cases hd : pyRepr v with
            | error err =>
                rw [hd] at h
                simp [except_bind_error] at h
            | ok disp =>
              rw [hd] at h
              refine ⟨disp, hrf, by simp [dispOf, hcs, hd], ?_⟩
              simpa [stepState, stepFlatKey, stepStructKey, flatCanon, structCanon, hcs,
                except_bind_ok] using h
          · have hcs' : stepConv seg = "s" := by
              rcases stepConv_cases seg with hh | hh
              · exact hh
              · exact absurd hh hcs
            rw [hcs'] at h
            rw [if_neg (by decide)] at h
            cases hd : pyStr v with
            | error err =>
                rw [hd] at h
                simp [except_bind_error] at h
            | ok disp =>
              rw [hd] at h
              refine ⟨disp, hrf, by simp [dispOf, hcs', hcs, hd], ?_⟩
              simpa [stepState, stepFlatKey, stepStructKey, flatCanon, structCanon, hcs',
                except_bind_ok] using h

/-! ## Invariants of the flattening loop -/

/-- Two key-flattener states agreeing on every stringified canonical key
(bang-free field, conversion s or r, any spec): the flattenEvent flattener
and the flatFormat flattener stay related this way because the extra
structured bumps of the former never touch a stringified canonical. -/
def CntAgree (kfA kfB : KF) : Prop :=
  ∀ (f c sp : String), NoBang f → (c = "s" ∨ c = "r") →
    kfGet kfA (canonSp f c sp) = kfGet kfB (canonSp f c sp)

/-- Every value stored under a stringified key is text (the structured raw
values sit under structured keys, which can never collide with stringified
keys). -/
def FlatShapedVals (fields : List (String × Value)) : Prop :=
  ∀ (f c sp : String) (m : Nat) (v : Value),
    NoBang f → (c = "s" ∨ c = "r") → 1 ≤ m →
    lookupA fields (keyN f c sp m) = some v → ∃ s, v = .vStr s

/-- Every stringified key with empty spec present in the accumulated fields
has a count within the current counter of its canonical key; consequently a
freshly computed key (count = counter + 1) is never already present. -/
def Fresh (fields : List (String × Value)) (kf : KF) : Prop :=
  ∀ (f c : String) (n : Nat), NoBang f → (c = "s" ∨ c = "r") → 1 ≤ n →
    containsA fields (keyN f c "" n) = true → n ≤ kfGet kf (canonSp f c "")

theorem structCanon_ne_canonSp {f g : String} (hf : NoBang f) (hg : NoBang g)
    {c : String} (hc : c = "s" ∨ c = "r") (sp sp' : String) :
    canonSp g c sp' ≠ structCanon f sp := by
  rw [canonSp_eq_keyN_one, structCanon, canonSp_eq_keyN_one]
  exact key_flat_ne_struct hg hf hc sp' sp 1 1

theorem kfGet_stepState_flat (kf : KF) (f sp : String) (seg : Seg)
    (hf : NoBang f) {g : String} (hg : NoBang g) {c : String}
    (hc : c = "s" ∨ c = "r") (sp' : String) :
    kfGet (stepState kf f sp seg) (canonSp g c sp') =
      if canonSp g c sp' = flatCanon seg f sp then kfGet kf (canonSp g c sp') + 1
      else kfGet kf (canonSp g c sp') := by
  unfold stepState
  rw [kfGet_setA_ne _ _ (structCanon_ne_canonSp hf hg hc sp sp')]
  by_cases hC : canonSp g c sp' = flatCanon seg f sp
  · rw [if_pos hC, hC, kfGet_setA_self, ← hC]
  · rw [if_neg hC, kfGet_setA_ne _ _ hC]

theorem cntAgree_step {kfA kfB : KF} (seg : Seg) (f sp : String) (hf : NoBang f)
    (h : CntAgree kfA kfB) :
    CntAgree (stepState kfA f sp seg)
      (setA kfB (flatCanon seg f sp) (kfGet kfB (flatCanon seg f sp) + 1)) := by
  intro g d sp' hg hd
  rw [kfGet_stepState_flat kfA f sp seg hf hg hd sp']
  by_cases hC : canonSp g d sp' = flatCanon seg f sp
  · rw [if_pos hC, hC, kfGet_setA_self]
    simp only [flatCanon]
    rw [h f (stepConv seg) sp hf (stepConv_cases seg)]
  · rw [if_neg hC, kfGet_setA_ne _ _ hC, h g d sp' hg hd]

theorem flatten_mono :
    ∀ (segs : List Seg) (e : Event) (kf : KF)
      (fields fieldsFinal : List (String × Value)),
      (∀ seg ∈ segs, ∃ f sp, seg.fieldName = some f ∧ seg.formatSpec = some sp) →
      flattenSegs e segs kf fields = .ok fieldsFinal →
      ∀ k, containsA fields k = true → containsA fieldsFinal k = true := by
  intro segs
  induction segs with
  | nil =>
      intro e kf fields fieldsFinal _ h k hk
      rw [flattenSegs] at h
      injection h with h2
      rw [← h2]
      exact hk
  | cons seg rest ih =>
      intro e kf fields fieldsFinal hsegs h k hk
      obtain ⟨f, sp, hf, hsp⟩ := hsegs seg (by simp)
      have hrest : ∀ s ∈ rest, ∃ f sp, s.fieldName = some f ∧ s.formatSpec = some sp :=
        fun s hs => hsegs s (by simp [hs])
      rcases flattenSegs_cons_inv e seg rest kf fields fieldsFinal f sp hf hsp h with
        ⟨-, hrec⟩ | ⟨-, v, disp, -, -, hrec⟩
      · exact ih e _ fields fieldsFinal hrest hrec k hk
      · exact ih e _ _ fieldsFinal hrest hrec k
          (containsA_setA _ _ _ _ (containsA_setA _ _ _ _ hk))

theorem flatten_flatShaped :
    ∀ (segs : List Seg) (e : Event) (kf : KF)
      (fields fieldsFinal : List (String × Value)),
      (∀ seg ∈ segs, C5Seg seg) →
      flattenSegs e segs kf fields = .ok fieldsFinal →
      FlatShapedVals fields → FlatShapedVals fieldsFinal := by
  intro segs
  induction segs with
  | nil =>
      intro e kf fields fieldsFinal _ h hshape
      rw [flattenSegs] at h
      injection h with h2
      rw [← h2]
      exact hshape
  | cons seg rest ih =>
      intro e kf fields fieldsFinal hsegs h hshape
      obtain ⟨f, sp, hf, hsp, hnb, -⟩ := hsegs seg (by simp)
      have hrest : ∀ s ∈ rest, C5Seg s := fun s hs => hsegs s (by simp [hs])
      rcases flattenSegs_cons_inv e seg rest kf fields fieldsFinal f sp hf hsp h with
        ⟨-, hrec⟩ | ⟨-, v, disp, -, -, hrec⟩
      · exact ih e _ fields fieldsFinal hrest hrec hshape
      · refine ih e _ _ fieldsFinal hrest hrec ?_
        intro g c sp' m w hg hc hm hlk
        by_cases hS : keyN g c sp' m = stepStructKey kf f sp seg
        · exact absurd hS (key_flat_ne_struct hg hnb hc sp' sp m _)
        · rw [lookupA_setA_ne _ _ hS] at hlk
          by_cases hK : keyN g c sp' m = stepFlatKey kf f sp seg
          · rw [hK, lookupA_setA_self] at hlk
            exact ⟨disp, by injection hlk with h3; rw [← h3]⟩
          · rw [lookupA_setA_ne _ _ hK] at hlk
            exact hshape g c sp' m w hg hc hm hlk

theorem fresh_no_skip {fields : List (String × Value)} {kf : KF} {seg : Seg}
    {f : String} (hfr : Fresh fields kf) (hf : NoBang f) :
    containsA fields (stepFlatKey kf f "" seg) = false := by
  by_cases hc : containsA fields (stepFlatKey kf f "" seg) = true
  · exfalso
    have := hfr f (stepConv seg) (kfGet kf (flatCanon seg f "") + 1) hf
      (stepConv_cases seg) (by omega) (by simpa [stepFlatKey, flatCanon] using hc)
    simp only [flatCanon] at this
    omega
  · simpa using hc

theorem fresh_step_store {fields : List (String × Value)} {kf : KF} (seg : Seg)
    {f : String} (hf : NoBang f) (disp : String) (v : Value)
    (hfr : Fresh fields kf) :
    Fresh (setA (setA fields (stepFlatKey kf f "" seg) (.vStr disp))
        (stepStructKey kf f "" seg) v)
      (stepState kf f "" seg) := by
  intro g d k hg hd hk hcont
  by_cases hS : keyN g d "" k = stepStructKey kf f "" seg
  · exact absurd hS (key_flat_ne_struct hg hf hd "" "" k _)
  · rw [containsA, lookupA_setA_ne _ _ hS, ← containsA] at hcont
    rw [kfGet_stepState_flat kf f "" seg hf hg hd ""]
    by_cases hK : keyN g d "" k = stepFlatKey kf f "" seg
    · obtain ⟨hgf, hdc, hkn⟩ := key_flat_inj hg hf hd (stepConv_cases seg) hk
        (by omega) hK
      have hCeq : canonSp g d "" = flatCanon seg f "" := by
        rw [hgf, hdc, flatCanon]
      rw [if_pos hCeq, hCeq]
      omega
    · rw [containsA, lookupA_setA_ne _ _ hK, ← containsA] at hcont
      have hold := hfr g d k hg hd hk hcont
      by_cases hCeq : canonSp g d "" = flatCanon seg f ""
      · rw [if_pos hCeq]
        omega
      · rw [if_neg hCeq]
        exact hold

theorem fresh_step_skip {fields : List (String × Value)} {kf : KF} (seg : Seg)
    {f : String} (sp : String) (hf : NoBang f) (hfr : Fresh fields kf) :
    Fresh fields (stepState kf f sp seg) := by
  intro g d k hg hd hk hcont
  have := hfr g d k hg hd hk hcont
  have hmono := kfGet_stepState_mono kf f sp seg (canonSp g d "")
  omega

theorem flatten_lookup_frozen :
    ∀ (segs : List Seg) (e : Event) (kf : KF)
      (fields fieldsFinal : List (String × Value)) (f c : String) (n : Nat),
      (∀ seg ∈ segs, C2Seg seg) → NoBang f → (c = "s" ∨ c = "r") → 1 ≤ n →
      n ≤ kfGet kf (canonSp f c "") →
      flattenSegs e segs kf fields = .ok fieldsFinal →
      lookupA fieldsFinal (keyN f c "" n) = lookupA fields (keyN f c "" n) := by
  intro segs
  induction segs with
  | nil =>
      intro e kf fields fieldsFinal f c n _ _ _ _ _ h
      rw [flattenSegs] at h
      injection h with h2
      rw [← h2]
  | cons seg rest ih =>
      intro e kf fields fieldsFinal f c n hsegs hf hc hn hcnt h
      obtain ⟨g, hgf, hsn, hsp, -⟩ := hsegs seg (by simp)
      have hgnb : NoBang g := simpleName_noBang hsn
      have hrest : ∀ s ∈ rest, C2Seg s := fun s hs => hsegs s (by simp [hs])
      have hmono := kfGet_stepState_mono kf g "" seg (canonSp f c "")
      rcases flattenSegs_cons_inv e seg rest kf fields fieldsFinal g "" hgf hsp h with
        ⟨-, hrec⟩ | ⟨-, v, disp, -, -, hrec⟩
      · exact ih e _ fields fieldsFinal f c n hrest hf hc hn (by omega) hrec
      · rw [ih e _ _ fieldsFinal f c n hrest hf hc hn (by omega) hrec]
        have hS : keyN f c "" n ≠ stepStructKey kf g "" seg :=
          key_flat_ne_struct hf hgnb hc "" "" n _
        rw [lookupA_setA_ne _ _ hS]
        have hK : keyN f c "" n ≠ stepFlatKey kf g "" seg := by
          intro hK
          obtain ⟨hfg, hcc, hkn⟩ := key_flat_inj hf hgnb hc (stepConv_cases seg)
            hn (by omega) hK
          rw [hfg, hcc] at hcnt
          simp only [flatCanon] at hkn
          omega
        rw [lookupA_setA_ne _ _ hK]

theorem flatFormatSegs_cons (fields : Value) (seg : Seg) (rest : List Seg)
    (kf : KF) (acc : String) (f sp : String)
    (hf : seg.fieldName = some f) (hsp : seg.formatSpec = some sp)
    (hok : ConvOK seg.conversion) :
    flatFormatSegs fields (seg :: rest) kf acc =
      dictItem fields (stepFlatKey kf f sp seg) >>= fun value =>
        pyStr value >>= fun sv =>
          flatFormatSegs fields rest
            (setA kf (flatCanon seg f sp) (kfGet kf (flatCanon seg f sp) + 1))
            ((acc ++ seg.literal) ++ sv) := by
  rw [flatFormatSegs, hf, hsp, stepConv_pyOr hok, flatKey_some]
  dsimp only
  simp only [stepFlatKey, flatCanon]

theorem containsA_isSome {β : Type} (l : List (String × β)) (k : String)
    (h : containsA l k = true) : ∃ v, lookupA l k = some v := by
  rw [containsA] at h
  cases hl : lookupA l k with
  | none => rw [hl] at h; simp at h
  | some v => exact ⟨v, rfl⟩

/-- After a successful flattening run, the flatFormat loop over the same
segments succeeds: the keys it recomputes are all present in the final
fields (every C5-shaped segment's stringified key was either stored by its
own step or already present, and later steps never remove entries), and
every value under a stringified key is text. -/
theorem flatFormat_after_flatten :
    ∀ (segs : List Seg) (e : Event) (kfA kfB : KF)
      (fields fieldsFinal : List (String × Value)) (acc : String),
      (∀ seg ∈ segs, C5Seg seg) →
      CntAgree kfA kfB →
      FlatShapedVals fieldsFinal →
      flattenSegs e segs kfA fields = .ok fieldsFinal →
      ∃ out, flatFormatSegs (.vDict fieldsFinal) segs kfB acc = .ok out := by
  intro segs
  induction segs with
  | nil =>
      intro e kfA kfB fields fieldsFinal acc _ _ _ _
      exact ⟨acc, by rw [flatFormatSegs]⟩
  | cons seg rest ih =>
      intro e kfA kfB fields fieldsFinal acc hsegs hcnt hshape hrun
      obtain ⟨f, sp, hf, hsp, hnb, hok⟩ := hsegs seg (by simp)
      have hrest : ∀ s ∈ rest, C5Seg s := fun s hs => hsegs s (by simp [hs])
      have hrestfs : ∀ s ∈ rest, ∃ f sp, s.fieldName = some f ∧ s.formatSpec = some sp :=
        fun s hs => by
          obtain ⟨f', sp', h1, h2, -⟩ := hrest s hs
          exact ⟨f', sp', h1, h2⟩
      have hkeyeq : stepFlatKey kfB f sp seg = stepFlatKey kfA f sp seg := by
        unfold stepFlatKey flatCanon
        rw [hcnt f (stepConv seg) sp hnb (stepConv_cases seg)]
      have hstep :
          ∃ fields2, flattenSegs e rest (stepState kfA f sp seg) fields2 = .ok fieldsFinal ∧
            containsA fields2 (stepFlatKey kfA f sp seg) = true := by
        rcases flattenSegs_cons_inv e seg rest kfA fields fieldsFinal f sp hf hsp hrun with
          ⟨hct, hrec⟩ | ⟨-, v, disp, -, -, hrec⟩
        · exact ⟨fields, hrec, hct⟩
        · refine ⟨_, hrec, ?_⟩
          have hself : containsA (setA fields (stepFlatKey kfA f sp seg) (.vStr disp))
              (stepFlatKey kfA f sp seg) = true := by
            rw [containsA, lookupA_setA_self]
            rfl
          exact containsA_setA _ _ _ _ hself
      obtain ⟨fields2, hrec, hcont2⟩ := hstep
      have hcontFinal : containsA fieldsFinal (stepFlatKey kfA f sp seg) = true :=
        flatten_mono rest e _ fields2 fieldsFinal hrestfs hrec _ hcont2
      obtain ⟨v, hlk⟩ := containsA_isSome _ _ hcontFinal
      obtain ⟨s, hvs⟩ := hshape f (stepConv seg) sp _ v hnb (stepConv_cases seg)
        (by omega) hlk
      obtain ⟨out, hout⟩ := ih e (stepState kfA f sp seg)
        (setA kfB (flatCanon seg f sp) (kfGet kfB (flatCanon seg f sp) + 1))
        fields2 fieldsFinal ((acc ++ seg.literal) ++ s) hrest
        (cntAgree_step seg f sp hnb hcnt) hshape hrec
      refine ⟨out, ?_⟩
      rw [flatFormatSegs_cons _ _ _ _ _ f sp hf hsp hok, hkeyeq]
      rw [show dictItem (.vDict fieldsFinal) (stepFlatKey kfA f sp seg) =
            Except.ok v from by rw [dictItem, itemE, hlk]]
      rw [except_bind_ok, hvs]
      rw [show pyStr (Value.vStr s) = .ok s from rfl, except_bind_ok]
      exact hout

theorem vformatSegs_cons_simple (e : Event) (seg : Seg) (rest : List Seg)
    (auto : Option Nat) (acc : String) (f : String)
    (hf : seg.fieldName = some f) (hsp : seg.formatSpec = some "")
    (hsn : SimpleName f) :
    vformatSegs e (seg :: rest) auto acc =
      resolveSimple e f >>= fun obj =>
        convertField obj seg.conversion >>= fun obj2 =>
          pyStr obj2 >>= fun sv =>
            vformatSegs e rest auto ((acc ++ seg.literal) ++ sv) := by
  obtain ⟨-, hdig, hne⟩ := simpleName_facts hsn
  have hfne : ¬ (f = "") := by
    intro hh
    exact hne (by rw [hh])
  rw [vformatSegs, hf, hsp]
  dsimp only
  rw [if_neg hfne, if_neg hdig, except_bind_ok]
  dsimp only
  rw [getFieldLive_simple f e hsn]
  simp only [orEmpty, pyFormat_empty]

/-- The heart of the amended C2: a successful flattening run, the flatFormat
walk over the final snapshot, and the live vformat walk advance in lockstep
over simple, empty-spec, recognized-conversion segments, producing the same
text.  The fresh-key invariant rules out skips and overwrites, so the value
flatFormat finds under the key of the i-th reference is exactly the display
string flattenEvent computed for it, which agrees with what live rendering
prints for the same reference. -/
theorem flatten_live_lockstep :
    ∀ (segs : List Seg) (e : Event) (kfA kfB : KF) (auto : Option Nat)
      (fields fieldsFinal : List (String × Value)) (accF accL : String),
      (∀ seg ∈ segs, C2Seg seg) →
      CntAgree kfA kfB →
      Fresh fields kfA →
      flattenSegs e segs kfA fields = .ok fieldsFinal →
      ∃ out,
        flatFormatSegs (.vDict fieldsFinal) segs kfB accF = .ok (accF ++ out) ∧
        vformatSegs e segs auto accL = .ok (accL ++ out) := by
  intro segs
  induction segs with
  | nil =>
      intro e kfA kfB auto fields fieldsFinal accF accL _ _ _ _
      exact ⟨"", by rw [flatFormatSegs, str_append_empty],
        by rw [vformatSegs, str_append_empty]⟩
  | cons seg rest ih =>
      intro e kfA kfB auto fields fieldsFinal accF accL hsegs hcnt hfr hrun
      obtain ⟨f, hf, hsn, hsp, hok⟩ := hsegs seg (by simp)
      have hnb : NoBang f := simpleName_noBang hsn
      have hrest : ∀ s ∈ rest, C2Seg s := fun s hs => hsegs s (by simp [hs])
      rcases flattenSegs_cons_inv e seg rest kfA fields fieldsFinal f "" hf hsp hrun with
        ⟨hct, -⟩ | ⟨-, v, disp, hres, hdisp, hrec⟩
      · rw [fresh_no_skip hfr hnb] at hct
        cases hct
      · have hresS : resolveSimple e f = .ok v := by
          rw [← resolveField_simple e f hsn]
          exact hres
        have hbound : kfGet kfA (flatCanon seg f "") + 1 ≤
            kfGet (stepState kfA f "" seg) (canonSp f (stepConv seg) "") := by
          rw [kfGet_stepState_flat kfA f "" seg hnb hnb (stepConv_cases seg) ""]
          have hCeq : canonSp f (stepConv seg) "" = flatCanon seg f "" := rfl
          rw [if_pos hCeq]
          simp only [flatCanon]
          omega
        have hSne : keyN f (stepConv seg) "" (kfGet kfA (flatCanon seg f "") + 1) ≠
            stepStructKey kfA f "" seg :=
          key_flat_ne_struct hnb hnb (stepConv_cases seg) "" "" _ _
        have hKfinal : lookupA fieldsFinal (stepFlatKey kfA f "" seg) =
            some (.vStr disp) := by
          rw [show stepFlatKey kfA f "" seg =
                keyN f (stepConv seg) "" (kfGet kfA (flatCanon seg f "") + 1)
              from rfl]
          rw [flatten_lookup_frozen rest e (stepState kfA f "" seg) _ fieldsFinal
            f (stepConv seg) (kfGet kfA (flatCanon seg f "") + 1) hrest hnb
            (stepConv_cases seg) (by omega) hbound hrec]
          rw [lookupA_setA_ne _ _ hSne]
          rw [show keyN f (stepConv seg) "" (kfGet kfA (flatCanon seg f "") + 1) =
                stepFlatKey kfA f "" seg from rfl]
          rw [lookupA_setA_self]
        have hkeyeq : stepFlatKey kfB f "" seg = stepFlatKey kfA f "" seg := by
          unfold stepFlatKey flatCanon
          rw [hcnt f (stepConv seg) "" hnb (stepConv_cases seg)]
        obtain ⟨out', hF, hL⟩ := ih e (stepState kfA f "" seg)
          (setA kfB (flatCanon seg f "") (kfGet kfB (flatCanon seg f "") + 1)) auto
          _ fieldsFinal ((accF ++ seg.literal) ++ disp) ((accL ++ seg.literal) ++ disp)
          hrest (cntAgree_step seg f "" hnb hcnt)
          (fresh_step_store seg hnb disp v hfr) hrec
        refine ⟨seg.literal ++ (disp ++ out'), ?_, ?_⟩
        · rw [flatFormatSegs_cons _ _ _ _ _ f "" hf hsp hok, hkeyeq]
          rw [show dictItem (.vDict fieldsFinal) (stepFlatKey kfA f "" seg) =
                .ok (.vStr disp) from by rw [dictItem, itemE, hKfinal]]
          rw [except_bind_ok]
          rw [show pyStr (Value.vStr disp) = .ok disp from rfl, except_bind_ok]
          rw [hF, str_append_assoc, str_append_assoc]
        · rw [vformatSegs_cons_simple e seg rest auto accL f hf hsp hsn]
          rw [hresS, except_bind_ok]
          have hconvstep : convertField v seg.conversion >>= (fun obj2 =>
              pyStr obj2 >>= fun sv =>
                vformatSegs e rest auto ((accL ++ seg.literal) ++ sv)) =
              vformatSegs e rest auto ((accL ++ seg.literal) ++ disp) := by
            rcases hok with hc | hc | hc
            · have hsc : stepConv seg = "s" := by simp [stepConv, hc]
              rw [hc]
              rw [show convertField v none = .ok v from rfl, except_bind_ok]
              rw [show pyStr v = .ok disp from by
                simpa [dispOf, hsc] using hdisp]
              rw [except_bind_ok]
            · have hsc : stepConv seg = "s" := by simp [stepConv, hc]
              have hpy : pyStr v = .ok disp := by
                simpa [dispOf, hsc] using hdisp
              rw [hc]
              rw [show convertField v (some "s") =
                    pyStr v >>= fun s => .ok (.vStr s) from rfl]
              rw [hpy, except_bind_ok, except_bind_ok]
              rw [show pyStr (Value.vStr disp) = .ok disp from rfl, except_bind_ok]
            · have hsc : stepConv seg = "r" := by simp [stepConv, hc]
              have hpy : pyRepr v = .ok disp := by
                simpa [dispOf, hsc] using hdisp
              rw [hc]
              rw [show convertField v (some "r") =
                    pyRepr v >>= fun s => .ok (.vStr s) from rfl]
              rw [hpy, except_bind_ok, except_bind_ok]
              rw [show pyStr (Value.vStr disp) = .ok disp from rfl, except_bind_ok]
          rw [hconvstep, hL, str_append_assoc, str_append_assoc]

theorem except_map_error {ε α β : Type} (err : ε) (g : α → β) :
    (Except.error err : Except ε α).map g = .error err := rfl

/-- The traced flattening loop is the flattening loop: forgetting the trace
gives back flattenSegs exactly, on every input and in every error case. -/
theorem flattenSegsT_fst :
    ∀ (segs : List Seg) (e : Event) (kf : KF)
      (fields : List (String × Value)) (tr : List String),
      (flattenSegsT e segs kf fields tr).map Prod.fst =
        flattenSegs e segs kf fields := by
  intro segs
  induction segs with
  | nil => intro e kf fields tr; rfl
  | cons seg rest ih =>
      intro e kf fields tr
      rw [flattenSegsT, flattenSegs]
      dsimp only [flatKey]
      simp only [kfGet_setA_self]
      by_cases hct :
          containsA fields
            (if kfGet kf (flatKeyCanonical seg.fieldName seg.formatSpec
                  (if seg.conversion = some "r" then some "r" else some "s")) + 1 = 1 then
              flatKeyCanonical seg.fieldName seg.formatSpec
                (if seg.conversion = some "r" then some "r" else some "s")
            else
              flatKeyCanonical seg.fieldName seg.formatSpec
                  (if seg.conversion = some "r" then some "r" else some "s") ++ "/" ++
                pyNatStr (kfGet kf (flatKeyCanonical seg.fieldName seg.formatSpec
                  (if seg.conversion = some "r" then some "r" else some "s")) + 1)) = true
      · rw [if_pos hct, if_pos hct]
        exact ih e _ fields tr
      · rw [if_neg hct, if_neg hct]
        cases hfn : seg.fieldName with
        | none => rfl
        | some f =>
            dsimp only [except_bind_ok]
            cases hpar : endsWithParens f <;>
              simp only [Bool.false_eq_true, if_false, if_true, eq_self_iff_true]
            · cases hr : getFieldRaw f e with
              | error err => rfl
              | ok v =>
                  dsimp only [except_bind_ok]
                  by_cases hc : seg.conversion = some "r"
                  · simp only [hc, eq_self_iff_true, if_true]
                    cases hd : pyRepr v with
                    | error err => rfl
                    | ok disp => exact ih e _ _ _
                  · simp only [hc, if_false]
                    rw [if_neg (by decide : ¬((some "s" : Option String) = some "r")),
                      if_neg (by decide : ¬((some "s" : Option String) = some "r"))]
                    cases hd : pyStr v with
                    | error err => rfl
                    | ok disp => exact ih e _ _ _
            · cases hr : getFieldRaw (dropParens f) e with
              | error err => rfl
              | ok v0 =>
                  dsimp only [except_bind_ok]
                  cases hcv : callValue v0 with
                  | error err => rfl
                  | ok v =>
                      dsimp only [except_bind_ok]
                      by_cases hc : seg.conversion = some "r"
                      · simp only [hc, eq_self_iff_true, if_true]
                        cases hd : pyRepr v with
                        | error err => rfl
                        | ok disp => exact ih e _ _ _
                      · simp only [hc, if_false]
                        rw [if_neg (by decide : ¬((some "s" : Option String) = some "r")),
                          if_neg (by decide : ¬((some "s" : Option String) = some "r"))]
                        cases hd : pyStr v with
                        | error err => rfl
                        | ok disp => exact ih e _ _ _

/-- Inversion of one step of the traced flattening loop, mirroring
flattenSegs_cons_inv: a skipped occurrence leaves fields and trace alone, a
resolved one stores both entries and records one resolution. -/
theorem flattenSegsT_cons_inv (e : Event) (seg : Seg) (rest : List Seg) (kf : KF)
    (fields fieldsFinal : List (String × Value)) (tr trFinal : List String)
    (f sp : String)
    (hf : seg.fieldName = some f) (hsp : seg.formatSpec = some sp)
    (h : flattenSegsT e (seg :: rest) kf fields tr = .ok (fieldsFinal, trFinal)) :
    (containsA fields (stepFlatKey kf f sp seg) = true ∧
        flattenSegsT e rest (stepState kf f sp seg) fields tr =
          .ok (fieldsFinal, trFinal)) ∨
    (containsA fields (stepFlatKey kf f sp seg) = false ∧
      ∃ v disp nm,
        flattenSegsT e rest (stepState kf f sp seg)
          (setA (setA fields (stepFlatKey kf f sp seg) (.vStr disp))
            (stepStructKey kf f sp seg) v) (tr ++ [nm]) =
          .ok (fieldsFinal, trFinal)) := by
  have hconv : (if seg.conversion = some "r" then some "r" else some "s") =
      some (stepConv seg) := by
    unfold stepConv
    by_cases hc : seg.conversion = some "r" <;> simp [hc]
  rw [flattenSegsT, hconv, hf, hsp, flatKey_some] at h
  dsimp only at h
  rw [flatKey_some] at h
  dsimp only at h
  by_cases hct : containsA fields (stepFlatKey kf f sp seg) = true
  · left
    refine ⟨hct, ?_⟩
    rw [show stepFlatKey kf f sp seg =
          keyN f (stepConv seg) sp (kfGet kf (canonSp f (stepConv seg) sp) + 1)
        from rfl] at hct
    rw [hct] at h
    simpa [stepState, flatCanon, structCanon] using h
  · right
    have hcf : containsA fields
        (keyN f (stepConv seg) sp (kfGet kf (canonSp f (stepConv seg) sp) + 1)) = false := by
      simpa [stepFlatKey, flatCanon] using Bool.not_eq_true _ ▸ hct
    refine ⟨by simpa [stepFlatKey, flatCanon] using hcf, ?_⟩
    rw [hcf] at h
    simp only [Bool.false_eq_true, if_false] at h
    cases hpar : endsWithParens f <;> rw [hpar] at h
    · simp only [Bool.false_eq_true, if_false, except_bind_ok] at h
      cases hr : getFieldRaw f e with
      | error err =>
          rw [hr] at h
          simp [except_bind_error] at h
      | ok v =>
        rw [hr] at h
        simp only [except_bind_ok] at h
        by_cases hcs : stepConv seg = "r"
        · rw [hcs] at h
          rw [if_pos rfl] at h
          cases hd : pyRepr v with
          | error err =>
              rw [hd] at h
              simp [except_bind_error] at h
          | ok disp =>
            rw [hd] at h
            refine ⟨v, disp, f, ?_⟩
            simpa [stepState, stepFlatKey, stepStructKey, flatCanon, structCanon, hcs,
              except_bind_ok] using h
        · have hcs' : stepConv seg = "s" := by
            rcases stepConv_cases seg with hh | hh
            · exact hh
            · exact absurd hh hcs
          rw [hcs'] at h
          rw [if_neg (by decide)] at h
          cases hd : pyStr v with
          | error err =>
              rw [hd] at h
              simp [except_bind_error] at h
          | ok disp =>
            rw [hd] at h
            refine ⟨v, disp, f, ?_⟩
            simpa [stepState, stepFlatKey, stepStructKey, flatCanon, structCanon, hcs',
              except_bind_ok] using h
    · simp only [if_true, except_bind_ok] at h
      cases hr : getFieldRaw (dropParens f) e with
      | error err =>
          rw [hr] at h
          simp [except_bind_error] at h
      | ok v0 =>
        rw [hr] at h
        simp only [except_bind_ok] at h
        cases hcv : callValue v0 with
        | error err =>
            rw [hcv] at h
            simp [except_bind_error] at h
        | ok v =>
          rw [hcv] at h
          simp only [except_bind_ok] at h
          by_cases hcs : stepConv seg = "r"
          · rw [hcs] at h
            rw [if_pos rfl] at h
            cases hd : pyRepr v with
            | error err =>
                rw [hd] at h
                simp [except_bind_error] at h
            | ok disp =>
              rw [hd] at h
              refine ⟨v, disp, dropParens f, ?_⟩
              simpa [stepState, stepFlatKey, stepStructKey, flatCanon, structCanon, hcs,
                except_bind_ok] using h
          · have hcs' : stepConv seg = "s" := by
              rcases stepConv_cases seg with hh | hh
              · exact hh
              · exact absurd hh hcs
            rw [hcs'] at h
            rw [if_neg (by decide)] at h
            cases hd : pyStr v with
            | error err =>
                rw [hd] at h
                simp [except_bind_error] at h
            | ok disp =>
              rw [hd] at h
              refine ⟨v, disp, dropParens f, ?_⟩
              simpa [stepState, stepFlatKey, stepStructKey, flatCanon, structCanon, hcs',
                except_bind_ok] using h

/-- With simple names and empty specs no occurrence is ever skipped, so the
traced flattening loop records exactly one resolution per segment. -/
theorem flattenT_trace_length :
    ∀ (segs : List Seg) (e : Event) (kf : KF)
      (fields fieldsFinal : List (String × Value)) (tr trFinal : List String),
      (∀ seg ∈ segs, C2Seg seg) → Fresh fields kf →
      flattenSegsT e segs kf fields tr = .ok (fieldsFinal, trFinal) →
      trFinal.length = tr.length + segs.length := by
  intro segs
  induction segs with
  | nil =>
      intro e kf fields fieldsFinal tr trFinal _ _ h
      rw [flattenSegsT] at h
      injection h with h2
      rw [show trFinal = tr from by
        have := congrArg Prod.snd h2
        simpa using this.symm]
      simp
  | cons seg rest ih =>
      intro e kf fields fieldsFinal tr trFinal hsegs hfr h
      obtain ⟨f, hf, hsn, hsp, -⟩ := hsegs seg (by simp)
      have hnb : NoBang f := simpleName_noBang hsn
      have hrest : ∀ s ∈ rest, C2Seg s := fun s hs => hsegs s (by simp [hs])
      rcases flattenSegsT_cons_inv e seg rest kf fields fieldsFinal tr trFinal f ""
          hf hsp h with
        ⟨hct, -⟩ | ⟨-, v, disp, nm, hrec⟩
      · rw [fresh_no_skip hfr hnb] at hct
        cases hct
      · have := ih e (stepState kf f "" seg) _ fieldsFinal (tr ++ [nm]) trFinal
          hrest (fresh_step_store seg hnb disp v hfr) hrec
        simp only [List.length_append, List.length_cons, List.length_nil] at this ⊢
        omega

/-! ## Claims -/

/-- Claim C10: formatEvent of the empty event is the empty text, and
formatEventAsClassicLogText of the empty event emits no line (for every
time formatter, which is never consulted). -/
theorem C10_empty_event :
    formatEvent [] = "" ∧
      ∀ ftime : Value → Except PyErr String,
        formatEventAsClassicLogText ftime [] = .ok none := by
  refine ⟨rfl, fun ftime => rfl⟩

/-- Claim C9: formatTime returns the default whenever the timestamp or the
pattern is None, whatever the other arguments and whatever the (host
dependent) strftime rendering of concrete times; the default pattern is the
RFC 3339 form with numeric offset and the default fallback text is a dash,
so formatTime on a None timestamp with the defaults yields the dash. -/
theorem C9_formatTime_defaults :
    (∀ (render : Value → Value → Except PyErr String) (tf : Value) (d : String),
        formatTime render .vNone tf d = .ok d) ∧
    (∀ (render : Value → Value → Except PyErr String) (w : Value) (d : String),
        formatTime render w .vNone d = .ok d) ∧
    timeFormatRFC3339 = "%Y-%m-%dT%H:%M:%S%z" ∧
    (∀ (render : Value → Value → Except PyErr String) (w : Value),
        formatTime render w = formatTime render w (.vStr timeFormatRFC3339) "-") ∧
    (∀ (render : Value → Value → Except PyErr String) (tf : Value),
        formatTime render .vNone tf = .ok "-") := by
  refine ⟨?_, ?_, rfl, ?_, ?_⟩
  · intro render tf d
    simp [formatTime, isNone]
  · intro render w d
    simp [formatTime, isNone]
  · intro render w
    rfl
  · intro render tf
    simp [formatTime, isNone]

/-- Claim C1: formatEvent returns a text value for every event and never
raises: the visible exception channel of formatEventE is never an error and
always carries exactly formatEvent's text; formatEvent's text is the
try-block's result when that succeeds and otherwise the fallback text of
formatUnformattableEvent; and the fallback itself degrades from its repr
tier to the safe_repr tier instead of failing. -/
theorem C1_formatEvent_never_raises :
    ∀ e : Event,
      formatEventE e = .ok (formatEvent e) ∧
      (formatEvent e =
        match formatEventBody e with
        | .ok s => s
        | .error err => formatUnformattableEvent e err) ∧
      ∀ err : PyErr,
        (match formatUnformattableTier1 e err with
         | .ok s => formatUnformattableEvent e err = s
         | .error err1 =>
             formatUnformattableEvent e err = formatUnformattableTier2 e err err1) := by
  intro e
  refine ⟨?_, rfl, ?_⟩
  · cases h : formatEventBody e <;> simp [formatEventE, formatEvent, h]
  · intro err
    cases h : formatUnformattableTier1 e err <;> simp [formatUnformattableEvent, h]

/-- Claim C6: repeated flatKey calls of one KeyFlattener instance with the
same fieldName/formatSpec/conversion arguments give pairwise-distinct keys:
the first call (index 0) returns the canonical key
fieldName!conversion:formatSpec unchanged (None conversion and formatSpec
read as empty, per flatKeyCanonical), and the (n+1)-st call returns the
canonical key suffixed with a slash and the decimal count n+1.  No call can
raise: flatKey is a total function of the counter state. -/
theorem C6_flatKey_repeated_keys :
    ∀ (f sp c : Option String) (n : Nat),
      ((iterFlatKey f sp c n).1 =
        if n = 0 then flatKeyCanonical f sp c
        else flatKeyCanonical f sp c ++ "/" ++ pyNatStr (n + 1)) ∧
      ∀ m : Nat, m ≠ n →
        (iterFlatKey f sp c m).1 ≠ (iterFlatKey f sp c n).1 := by
  intro f sp c n
  refine ⟨iterFlatKey_key f sp c n, ?_⟩
  intro m hmn h
  rw [iterFlatKey_key, iterFlatKey_key] at h
  rcases Nat.eq_zero_or_pos m with hm | hm <;>
    rcases Nat.eq_zero_or_pos n with hn | hn
  · exact hmn (hm.trans hn.symm)
  · rw [if_pos hm, if_neg (Nat.pos_iff_ne_zero.mp hn)] at h
    have := congrArg String.length h
    simp only [String.length_append] at this
    have hone : (1 : Nat) ≤ String.length "/" := by decide
    omega
  · rw [if_neg (Nat.pos_iff_ne_zero.mp hm), if_pos hn] at h
    have := congrArg String.length h
    simp only [String.length_append] at this
    have hone : (1 : Nat) ≤ String.length "/" := by decide
    omega
  · rw [if_neg (Nat.pos_iff_ne_zero.mp hm), if_neg (Nat.pos_iff_ne_zero.mp hn)] at h
    rw [String.append_assoc, String.append_assoc] at h
    have h2 := str_append_right_inj _ h
    have h3 := str_append_right_inj _ h2
    have h4 := pyNatStr_inj _ _ h3
    omega

/-- Witness for C6 at a concrete field: the second and third keys for the
same arguments differ. -/
theorem C6_witness :
    (1 : Nat) ≠ 2 ∧
      (iterFlatKey (some "x") (some "") (some "s") 1).1 ≠
        (iterFlatKey (some "x") (some "") (some "s") 2).1 :=
  ⟨by decide, (C6_flatKey_repeated_keys (some "x") (some "") (some "s") 2).2 1 (by decide)⟩

/-- The event refuting claim C2: a pure field rendered through a width
format spec. -/
def c2Event : Event := [("log_format", .vStr "\x7bx:4\x7d"), ("x", .vInt 5)]

/-- c2Event after flattening (the snapshot keys carry the spec, but the
stored display string was built with plain str, ignoring the width). -/
def c2EventFlat : Event :=
  [("log_format", .vStr "\x7bx:4\x7d"), ("x", .vInt 5),
   ("log_flattened", .vDict [("x!s:4", .vStr "5"), ("x!:4", .vInt 5)])]

/-- Claim C2 counterexample: for the pure event with template x-colon-4 and
x = 5 (recognized conversion: none), live rendering applies the width and
yields four characters, while flatten-then-render returns the bare digit:
flatFormat ignores format specs at render time, so the two texts differ. -/
theorem C2_counterexample_formatSpec_dropped :
    flattenEventE c2Event = .ok c2EventFlat ∧
    formatEvent c2Event = "   5" ∧
    flatFormatE c2EventFlat = .ok "5" ∧
    ("   5" : String) ≠ "5" := by
  refine ⟨rfl, rfl, rfl, by decide⟩

/-- Claim C2 as amended: flatten-then-render produces the same display text
as live rendering for events whose template consists of simple field
references (single-component names, possibly call-suffixed, no bang, colon,
slash, dots, brackets or braces, not all digits) with empty format specs
and recognized conversions, whenever flattening succeeds (pure, resolvable
fields).  In the model every value is pure, so purity needs no separate
hypothesis.  Templates with a trailing literal or brace escape crash
flattenEvent (fieldName None), templates with nonempty specs render
differently (the counterexample), and both are excluded here. -/
theorem C2_flatten_then_render_matches_live :
    ∀ (e : Event) (fmt : String) (segs : List Seg) (e' : Event),
      containsA e "log_flattened" = false →
      lookupA e "log_format" = some (.vStr fmt) →
      parseFmt fmt = .ok segs →
      (∀ seg ∈ segs, C2Seg seg) →
      flattenEventE e = .ok e' →
      ∃ s, flatFormatE e' = .ok s ∧ formatEvent e = s := by
  intro e fmt segs e' hnofl hlk hparse hsegs hE
  have hcf : containsA e "log_format" = true := by
    rw [containsA, hlk]
    rfl
  rw [flattenEventE, if_pos hcf] at hE
  rw [itemE, hlk] at hE
  simp only [except_bind_ok] at hE
  rw [show asParsable (.vStr fmt) = .ok fmt from rfl] at hE
  simp only [except_bind_ok] at hE
  rw [hparse] at hE
  simp only [except_bind_ok] at hE
  cases hfl : flattenSegs e segs [] [] with
  | error err =>
      rw [hfl] at hE
      simp [except_bind_error] at hE
  | ok fields =>
      rw [hfl] at hE
      simp only [except_bind_ok] at hE
      injection hE with hE2
      obtain ⟨out, hF, hL⟩ :=
        flatten_live_lockstep segs e [] [] (some 0) [] fields "" ""
          hsegs (fun _ _ _ _ _ => rfl)
          (by
            intro g d k _ _ _ hcontain
            rw [containsA, lookupA] at hcontain
            cases hcontain)
          hfl
      refine ⟨"" ++ out, ?_, ?_⟩
      · rw [flatFormatE, ← hE2]
        rw [show itemE (setA e "log_flattened" (.vDict fields)) "log_flattened" =
              .ok (.vDict fields) from by rw [itemE, lookupA_setA_self]]
        rw [except_bind_ok]
        rw [show itemE (setA e "log_flattened" (.vDict fields)) "log_format" =
              .ok (.vStr fmt) from by
            rw [itemE, lookupA_setA_ne _ _ (by decide), hlk]]
        rw [except_bind_ok]
        rw [show asParsable (.vStr fmt) = .ok fmt from rfl]
        rw [except_bind_ok, hparse, except_bind_ok]
        exact hF
      · rw [formatEvent, formatEventBody, if_neg (by rw [hnofl]; intro hh; cases hh)]
        rw [show getD e "log_format" .vNone = .vStr fmt from by rw [getD, hlk]]
        dsimp only
        rw [show isNone (.vStr fmt) = false from rfl]
        simp only [Bool.false_eq_true, if_false]
        rw [show coerceFormat (.vStr fmt) = .ok fmt from rfl]
        rw [except_bind_ok, formatWithCall, hparse, except_bind_ok, hL]

/-- Witness for the amended C2 at the specification's own example: the
template with two plain and one r-converted references to x = 5 renders as
the text 5 space 5 space 5 both live and from the flattened snapshot. -/
theorem C2_witness :
    ∃ s,
      flatFormatE [("log_format", .vStr "\x7bx\x7d \x7bx\x7d \x7bx!r\x7d"), ("x", .vInt 5),
          ("log_flattened", .vDict
            [("x!s:", .vStr "5"), ("x!:", .vInt 5),
             ("x!s:/2", .vStr "5"), ("x!:/2", .vInt 5),
             ("x!r:", .vStr "5"), ("x!:/3", .vInt 5)])] = .ok s ∧
        formatEvent [("log_format", .vStr "\x7bx\x7d \x7bx\x7d \x7bx!r\x7d"),
          ("x", .vInt 5)] = s :=
  C2_flatten_then_render_matches_live
    [("log_format", .vStr "\x7bx\x7d \x7bx\x7d \x7bx!r\x7d"), ("x", .vInt 5)]
    "\x7bx\x7d \x7bx\x7d \x7bx!r\x7d"
    [⟨"", some "x", some "", none⟩, ⟨" ", some "x", some "", none⟩,
     ⟨" ", some "x", some "", some "r"⟩]
    [("log_format", .vStr "\x7bx\x7d \x7bx\x7d \x7bx!r\x7d"), ("x", .vInt 5),
     ("log_flattened", .vDict
       [("x!s:", .vStr "5"), ("x!:", .vInt 5),
        ("x!s:/2", .vStr "5"), ("x!:/2", .vInt 5),
        ("x!r:", .vStr "5"), ("x!:/3", .vInt 5)])]
    rfl rfl rfl
    (by
      intro seg hseg
      have hx : SimpleName "x" :=
        ⟨['x'], Or.inl rfl, by decide,
          by
            intro ch hch
            simp only [List.mem_singleton] at hch
            subst hch
            unfold SimpleChar
            decide,
          by decide⟩
      simp only [List.mem_cons, List.not_mem_nil, or_false] at hseg
      rcases hseg with rfl | rfl | rfl
      · exact ⟨"x", rfl, hx, rfl, Or.inl rfl⟩
      · exact ⟨"x", rfl, hx, rfl, Or.inl rfl⟩
      · exact ⟨"x", rfl, hx, rfl, Or.inr (Or.inr rfl)⟩)
    rfl

/-- The event refuting claim C4: the same field reference twice. -/
def c4Event : Event := [("log_format", .vStr "\x7bx\x7d \x7bx\x7d"), ("x", .vInt 5)]

/-- Claim C4 counterexample: with the same fieldName/formatSpec/conversion
combination occurring twice, flattenEvent resolves the field against the
event twice, not once: the second occurrence gets the suffixed key x!s:/2,
which is not yet present, so it is not skipped. -/
theorem C4_counterexample_duplicate_resolved_twice :
    flattenTrace c4Event = .ok ["x", "x"] ∧
    flattenTrace c4Event ≠ .ok ["x"] := by
  refine ⟨rfl, fun h => ?_⟩
  rw [show flattenTrace c4Event = .ok ["x", "x"] from rfl] at h
  injection h with h2
  exact absurd h2 (by decide)

/-- Claim C4 as amended: the skip branch fires exactly on a literal key
collision — an occurrence whose flattened key is already present in the
accumulated fields is skipped entirely, leaving the fields and the
resolution trace unchanged (first conjunct); but because repeated
occurrences of the same fieldName/formatSpec/conversion combination receive
distinct suffixed keys, no occurrence of a template of simple references is
ever skipped: a successful flattenEvent resolves the field once per
occurrence, not once per combination (second conjunct). -/
theorem C4_skip_on_collision_else_resolve_each_occurrence :
    (∀ (e : Event) (seg : Seg) (rest : List Seg) (kf : KF)
        (fields : List (String × Value)) (tr : List String) (f sp : String),
        seg.fieldName = some f → seg.formatSpec = some sp →
        containsA fields (stepFlatKey kf f sp seg) = true →
        flattenSegsT e (seg :: rest) kf fields tr =
          flattenSegsT e rest (stepState kf f sp seg) fields tr) ∧
    (∀ (e : Event) (segs : List Seg) (fields : List (String × Value))
        (tr : List String),
        (∀ seg ∈ segs, C2Seg seg) →
        flattenSegsT e segs [] [] [] = .ok (fields, tr) →
        tr.length = segs.length) := by
  constructor
  · intro e seg rest kf fields tr f sp hf hsp hct
    have hconv : (if seg.conversion = some "r" then some "r" else some "s") =
        some (stepConv seg) := by
      unfold stepConv
      by_cases hc : seg.conversion = some "r" <;> simp [hc]
    rw [flattenSegsT, hconv, hf, hsp, flatKey_some]
    dsimp only
    rw [flatKey_some]
    dsimp only
    have hct' : containsA fields
        (keyN f (stepConv seg) sp (kfGet kf (canonSp f (stepConv seg) sp) + 1)) =
        true := by
      simpa [stepFlatKey, flatCanon] using hct
    rw [hct']
    simp [stepState, flatCanon, structCanon]
  · intro e segs fields tr hsegs h
    have hfr : Fresh [] [] := by
      intro f c n _ _ _ hct
      rw [show containsA ([] : List (String × Value)) (keyN f c "" n) = false
        from rfl] at hct
      cases hct
    have := flattenT_trace_length segs e [] [] fields [] tr hsegs hfr h
    simpa using this

/-- Witness for the amended C4: an occurrence of x whose key x!s: is already
stored is skipped with fields and trace untouched, and the two-occurrence
template x space x yields a trace of two resolutions of x. -/
theorem C4_witness :
    (flattenSegsT [("x", Value.vInt 5)]
        [⟨"", some "x", some "", none⟩] [] [("x!s:", Value.vStr "9")] [] =
      flattenSegsT [("x", Value.vInt 5)] []
        (stepState [] "x" "" ⟨"", some "x", some "", none⟩)
        [("x!s:", Value.vStr "9")] []) ∧
    (["x", "x"] : List String).length =
      [(⟨"", some "x", some "", none⟩ : Seg),
       ⟨" ", some "x", some "", none⟩].length := by
  have hx : SimpleName "x" :=
    ⟨['x'], Or.inl rfl, by decide,
      by
        intro ch hch
        simp only [List.mem_singleton] at hch
        subst hch
        unfold SimpleChar
        decide,
      by decide⟩
  refine ⟨C4_skip_on_collision_else_resolve_each_occurrence.1
      [("x", Value.vInt 5)] ⟨"", some "x", some "", none⟩ [] []
      [("x!s:", Value.vStr "9")] [] "x" "" rfl rfl (by decide),
    C4_skip_on_collision_else_resolve_each_occurrence.2
      [("x", Value.vInt 5)]
      [⟨"", some "x", some "", none⟩, ⟨" ", some "x", some "", none⟩]
      [("x!s:", Value.vStr "5"), ("x!:", Value.vInt 5),
       ("x!s:/2", Value.vStr "5"), ("x!:/2", Value.vInt 5)]
      ["x", "x"] ?_ rfl⟩
  intro seg hseg
  simp only [List.mem_cons, List.not_mem_nil, or_false] at hseg
  rcases hseg with rfl | rfl
  · exact ⟨"x", rfl, hx, rfl, Or.inl rfl⟩
  · exact ⟨"x", rfl, hx, rfl, Or.inl rfl⟩

/-- Claim C5 as amended: for templates all of whose references carry a field
name without a bang and a conversion among r, s and absent, the stringified
key flatFormat computes for each reference (conversion defaulted to s unless
explicitly r) coincides with the key flattenEvent stores for it, so after a
successful flattenEvent every key flatFormat looks up is present in
log_flattened and flatFormat succeeds.  (For an unrecognized conversion the
two keys differ, as the counterexample shows.) -/
theorem C5_flatFormat_finds_flattened_keys :
    ∀ (e : Event) (fmt : String) (segs : List Seg) (e' : Event),
      lookupA e "log_format" = some (.vStr fmt) →
      parseFmt fmt = .ok segs →
      (∀ seg ∈ segs, C5Seg seg) →
      flattenEventE e = .ok e' →
      ∃ out, flatFormatE e' = .ok out := by
  intro e fmt segs e' hlk hparse hsegs hE
  have hcf : containsA e "log_format" = true := by
    rw [containsA, hlk]
    rfl
  rw [flattenEventE, if_pos hcf] at hE
  rw [itemE, hlk] at hE
  simp only [except_bind_ok] at hE
  rw [show asParsable (.vStr fmt) = .ok fmt from rfl] at hE
  simp only [except_bind_ok] at hE
  rw [hparse] at hE
  simp only [except_bind_ok] at hE
  cases hfl : flattenSegs e segs [] [] with
  | error err =>
      rw [hfl] at hE
      simp [except_bind_error] at hE
  | ok fields =>
      rw [hfl] at hE
      simp only [except_bind_ok] at hE
      injection hE with hE2
      have hshape : FlatShapedVals fields := by
        refine flatten_flatShaped segs e [] [] fields hsegs hfl ?_
        intro g c sp m v _ _ _ hlk2
        rw [lookupA] at hlk2
        cases hlk2
      obtain ⟨out, hout⟩ :=
        flatFormat_after_flatten segs e [] [] [] fields ""
          hsegs (fun _ _ _ _ _ => rfl) hshape hfl
      refine ⟨out, ?_⟩
      rw [flatFormatE, ← hE2]
      rw [show itemE (setA e "log_flattened" (.vDict fields)) "log_flattened" =
            .ok (.vDict fields) from by rw [itemE, lookupA_setA_self]]
      rw [except_bind_ok]
      rw [show itemE (setA e "log_flattened" (.vDict fields)) "log_format" =
            .ok (.vStr fmt) from by
          rw [itemE, lookupA_setA_ne _ _ (by decide), hlk]]
      rw [except_bind_ok]
      rw [show asParsable (.vStr fmt) = .ok fmt from rfl]
      rw [except_bind_ok, hparse, except_bind_ok]
      exact hout

/-- Witness for the amended C5 at the template with a plain and an
r-converted reference to the same field. -/
theorem C5_witness :
    ∃ out,
      flatFormatE [("log_format", .vStr "\x7bx\x7d \x7bx!r\x7d"), ("x", .vInt 5),
        ("log_flattened", .vDict
          [("x!s:", .vStr "5"), ("x!:", .vInt 5),
           ("x!r:", .vStr "5"), ("x!:/2", .vInt 5)])] = .ok out :=
  C5_flatFormat_finds_flattened_keys
    [("log_format", .vStr "\x7bx\x7d \x7bx!r\x7d"), ("x", .vInt 5)]
    "\x7bx\x7d \x7bx!r\x7d"
    [⟨"", some "x", some "", none⟩, ⟨" ", some "x", some "", some "r"⟩]
    [("log_format", .vStr "\x7bx\x7d \x7bx!r\x7d"), ("x", .vInt 5),
     ("log_flattened", .vDict
       [("x!s:", .vStr "5"), ("x!:", .vInt 5),
        ("x!r:", .vStr "5"), ("x!:/2", .vInt 5)])]
    rfl rfl
    (by
      intro seg hseg
      simp only [List.mem_cons, List.not_mem_nil, or_false] at hseg
      rcases hseg with rfl | rfl
      · exact ⟨"x", "", rfl, rfl, by unfold NoBang; decide, Or.inl rfl⟩
      · exact ⟨"x", "", rfl, rfl, by unfold NoBang; decide, Or.inr (Or.inr rfl)⟩)
    rfl

/-- The event refuting claim C5: a template whose conversion is the
recognized-by-Python but not-s-and-not-r character a. -/
def c5Event : Event := [("log_format", .vStr "\x7bx!a\x7d"), ("x", .vInt 5)]

/-- c5Event after flattening: the stored stringified key forces the
conversion to s. -/
def c5EventFlat : Event :=
  [("log_format", .vStr "\x7bx!a\x7d"), ("x", .vInt 5),
   ("log_flattened", .vDict [("x!s:", .vStr "5"), ("x!:", .vInt 5)])]

/-- Claim C5 counterexample: for the conversion a (neither s nor r nor
absent), flattenEvent stores the key with conversion forced to s, but
flatFormat looks up the key with the conversion kept verbatim, so the key
it looks up is absent from log_flattened and the lookup raises KeyError. -/
theorem C5_counterexample_unrecognized_conversion :
    flattenEventE c5Event = .ok c5EventFlat ∧
    flatFormatE c5EventFlat = .error (.keyError "x!a:") ∧
    containsA [("x!s:", Value.vStr "5"), ("x!:", Value.vInt 5)] "x!a:" = false := by
  refine ⟨rfl, rfl, rfl⟩

/-- An event used to refute claim C3: log_flattened is present but empty,
the template references a field, and an unrelated extra field differs. -/
def c3EventWith (y : Int) : Event :=
  [("log_flattened", .vDict []), ("log_format", .vStr "\x7bx\x7d"), ("y", .vInt y)]

/-- Claim C3 counterexample: two events agreeing on log_format and
log_flattened (both present) for which formatEvent returns different text:
flattened rendering raises a KeyError, and the fallback then reprs the whole
event, exposing the unrelated field y. -/
theorem C3_counterexample_fallback_reads_other_fields :
    containsA (c3EventWith 1) "log_flattened" = true ∧
    containsA (c3EventWith 2) "log_flattened" = true ∧
    lookupA (c3EventWith 1) "log_format" = lookupA (c3EventWith 2) "log_format" ∧
    lookupA (c3EventWith 1) "log_flattened" = lookupA (c3EventWith 2) "log_flattened" ∧
    formatEvent (c3EventWith 1) ≠ formatEvent (c3EventWith 2) := by
  refine ⟨rfl, rfl, rfl, rfl, ?_⟩
  intro h
  rw [show formatEvent (c3EventWith 1) =
        "Unable to format event \x7b\x27log_flattened\x27: \x7b\x7d, \x27log_format\x27: \x27\x7bx\x7d\x27, \x27y\x27: 1\x7d: \x27x!s:\x27"
      from rfl,
    show formatEvent (c3EventWith 2) =
        "Unable to format event \x7b\x27log_flattened\x27: \x7b\x7d, \x27log_format\x27: \x27\x7bx\x7d\x27, \x27y\x27: 2\x7d: \x27x!s:\x27"
      from rfl] at h
  exact absurd h (by decide)

theorem flatFormatE_congr (e1 e2 : Event)
    (hfm : lookupA e1 "log_format" = lookupA e2 "log_format")
    (hfl : lookupA e1 "log_flattened" = lookupA e2 "log_flattened") :
    flatFormatE e1 = flatFormatE e2 := by
  simp only [flatFormatE, itemE]
  rw [hfm, hfl]

/-- Claim C3 as amended: when log_flattened is present and the flattened
rendering succeeds, formatEvent's output depends only on the log_format and
log_flattened entries: two events agreeing on those two keys produce the
same text, and no other entry is consulted.  (When the flattened rendering
raises, the fallback text incorporates the whole event, so the restriction
to successful renderings is necessary, as the counterexample shows.) -/
theorem C3_flattened_rendering_uses_snapshot_only :
    ∀ (e1 e2 : Event) (s : String),
      containsA e1 "log_flattened" = true →
      containsA e2 "log_flattened" = true →
      lookupA e1 "log_format" = lookupA e2 "log_format" →
      lookupA e1 "log_flattened" = lookupA e2 "log_flattened" →
      flatFormatE e1 = .ok s →
      formatEvent e1 = s ∧ formatEvent e2 = s := by
  intro e1 e2 s h1 h2 hfm hfl hok
  have h12 := flatFormatE_congr e1 e2 hfm hfl
  have b1 : formatEventBody e1 = .ok s := by
    rw [formatEventBody, if_pos h1]
    exact hok
  have b2 : formatEventBody e2 = .ok s := by
    rw [formatEventBody, if_pos h2, ← h12]
    exact hok
  constructor
  · rw [formatEvent, b1]
  · rw [formatEvent, b2]

/-- Witness for the amended C3 at a concrete flattened event. -/
theorem C3_witness :
    formatEvent [("log_flattened", .vDict [("x!s:", .vStr "5")]),
        ("log_format", .vStr "\x7bx\x7d")] = "5" ∧
    formatEvent [("log_flattened", .vDict [("x!s:", .vStr "5")]),
        ("log_format", .vStr "\x7bx\x7d")] = "5" :=
  C3_flattened_rendering_uses_snapshot_only
    [("log_flattened", .vDict [("x!s:", .vStr "5")]), ("log_format", .vStr "\x7bx\x7d")]
    [("log_flattened", .vDict [("x!s:", .vStr "5")]), ("log_format", .vStr "\x7bx\x7d")]
    "5" rfl rfl rfl rfl rfl

/-- Claim C7 counterexample: on the claim's own input, an event holding only
the callable and no log_format, flattenEvent is a no-op (it returns before
storing log_flattened), so extractField raises KeyError instead of
returning the call result 7. -/
theorem C7_counterexample_extractField_keyError :
    extractFieldE "function()" [("function", .vFuncOk (.vInt 7))] =
        .error (.keyError "log_flattened") ∧
      extractFieldE "function()" [("function", .vFuncOk (.vInt 7))] ≠
        .ok (.vInt 7) := by
  refine ⟨rfl, fun h => ?_⟩
  rw [show extractFieldE "function()" [("function", .vFuncOk (.vInt 7))] =
        .error (.keyError "log_flattened") from rfl] at h
  exact Except.noConfusion h

/-- Claim C7 as amended: when the event's log_format references the field,
extractField of a call-suffixed expression returns the result of invoking
the zero-argument callable (here 7), via the structured key computed for
the expression and the snapshot created by flattening. -/
theorem C7_extractField_call_result :
    extractFieldE "function()"
        [("log_format", .vStr "\x7bfunction()\x7d"),
         ("function", .vFuncOk (.vInt 7))] =
      .ok (.vInt 7) := rfl

/-- The system text exactly as claim C8 words it: the stringified
log_system when present, the literal UNFORMATTABLE when its
stringification raises, and otherwise namespace, a hash and the level name
with the level name defaulting to a dash when no level is set (the
namespace default is handled by the nss argument, the namespace text). -/
def specClassicSystem (e : Event) (nss : String) : String :=
  match getD e "log_system" .vNone with
  | .vNone =>
      nss ++ "#" ++
        (match getD e "log_level" .vNone with
         | .vLevel nm => nm
         | _ => "-")
  | sysv =>
      match pyStr sysv with
      | .ok s => s
      | .error _ => "UNFORMATTABLE"

/-- Claim C8: for every event whose formatted message is non-empty, the
classic log line is exactly the timestamp, the bracketed system text as the
claim describes it, and the message with each newline indented by a tab,
terminated by a newline.  The hypotheses pin the abstract pieces: the time
formatter yields ts, the namespace (defaulted to a dash) formats to nss,
and log_level is absent or a level (the code reads its name attribute
without a guard, so a levelless object would raise instead). -/
theorem C8_classic_log_line :
    ∀ (ftime : Value → Except PyErr String) (e : Event) (ts nss : String),
      formatEvent e ≠ "" →
      ftime (getD e "log_time" .vNone) = .ok ts →
      pyFormat (getD e "log_namespace" (.vStr "-")) "" = .ok nss →
      (getD e "log_level" .vNone = .vNone ∨
        ∃ nm, getD e "log_level" .vNone = .vLevel nm) →
      formatEventAsClassicLogText ftime e =
        .ok (some (ts ++ " [" ++ specClassicSystem e nss ++ "] " ++
          String.mk (indentNewlines (formatEvent e).data) ++ "\n")) := by
  intro ftime e ts nss htxt htime hns hlv
  unfold formatEventAsClassicLogText
  dsimp only
  rw [if_neg htxt]
  rw [htime, except_bind_ok]
  unfold specClassicSystem
  cases hsys : getD e "log_system" .vNone with
  | vNone =>
      dsimp only
      rcases hlv with hlv | ⟨nm, hlv⟩ <;> rw [hlv] <;> dsimp only <;>
        rw [except_bind_ok, hns, except_bind_ok, pyFormat_empty] <;>
        first
          | (rw [show pyStr (Value.vStr "-") = .ok "-" from rfl, except_bind_ok,
              except_bind_ok])
          | (rw [show pyStr (Value.vStr nm) = .ok nm from rfl, except_bind_ok,
              except_bind_ok])
  | vStr s => dsimp only; rw [except_bind_ok]
  | vInt n => dsimp only; rw [except_bind_ok]
  | vBytes b => dsimp only; rw [except_bind_ok]
  | vFuncOk v => dsimp only; rw [except_bind_ok]
  | vFuncRaises => dsimp only; rw [except_bind_ok]
  | vBadStr => dsimp only; rw [except_bind_ok]
  | vLevel nm => dsimp only; rw [except_bind_ok]
  | vDict entries => dsimp only; rw [except_bind_ok]

/-- Witness for C8 at the claim's own example: namespace ns and level named
info with message Hello render as TIME, bracketed ns hash info, Hello and a
newline. -/
theorem C8_witness :
    formatEventAsClassicLogText (fun _ => .ok "TIME")
        [("log_format", Value.vStr "Hello!"), ("log_namespace", Value.vStr "ns"),
         ("log_level", Value.vLevel "info")] =
      .ok (some "TIME [ns#info] Hello!\n") := by
  have h := C8_classic_log_line (fun _ => .ok "TIME")
    [("log_format", Value.vStr "Hello!"), ("log_namespace", Value.vStr "ns"),
     ("log_level", Value.vLevel "info")] "TIME" "ns"
    (by
      rw [show formatEvent
          [("log_format", Value.vStr "Hello!"), ("log_namespace", Value.vStr "ns"),
           ("log_level", Value.vLevel "info")] = "Hello!" from rfl]
      decide)
    rfl rfl (Or.inr ⟨"info", rfl⟩)
  rw [h]
  rfl

end TwistedFormat
